import Mathlib

/-
  Verification of the Cross-Source Conversation Normalization Engine
  (AI-Conversation-Viewer).

  Shallow embedding of:
  - src/claude_viewer/utils/cache.py           (LRUCache, TTLCache)
  - src/claude_viewer/utils/jsonl_parser.py    (get_conversation claude branch,
      _parse_message, _should_include_message, _parse_structured_content,
      _generate_diff_html, _escape_html, _contains_code, _find_state_key)

  Modelling conventions:
  - JSON-decoded Python values are the inductive `JValue`; JSON numbers are
    restricted to integers (no claim involves fractional data).
  - Python dicts coming from JSON are ordered association lists with unique
    keys; `dict.get` is association-list lookup.
  - `collections.OrderedDict` is an ordered association list, front = oldest
    (least recently used), back = newest; `move_to_end` is remove + append,
    `popitem(last=False)` drops the head.
  - Wall-clock time (`time.time()`) is an explicit `Int` parameter threaded
    through the TTL cache operations.
  - Fallible Python code (uncaught exceptions such as AttributeError /
    ZeroDivisionError) is modelled with `Except String`.
  - The threading locks serialize each operation; each Lean function models
    one whole locked operation.
-/

namespace AIView

/-- JSON-decoded value (result of Python `json.loads`). Numbers are
restricted to integers; objects are insertion-ordered association lists. -/
inductive JValue where
  | null
  | bool (b : Bool)
  | num (n : Int)
  | str (s : String)
  | arr (xs : List JValue)
  | obj (fields : List (String × JValue))
deriving Repr

namespace JValue

/-- Python `dict.get(k)` on a JSON object: `none` when the key is absent. -/
def get? (fields : List (String × JValue)) (k : String) : Option JValue :=
  (fields.find? (fun e => e.1 == k)).map (·.2)

/-- Python `dict.get(k, d)`. -/
def getD (fields : List (String × JValue)) (k : String) (d : JValue) : JValue :=
  (get? fields k).getD d

/-- Python truthiness of a JSON-decoded value. -/
def truthy : JValue → Bool
  | .null => false
  | .bool b => b
  | .num n => n != 0
  | .str s => !s.isEmpty
  | .arr xs => !xs.isEmpty
  | .obj fs => !fs.isEmpty

end JValue

/-! ## cache.py: LRUCache -/

/-- State of `LRUCache`: `self.cache` (OrderedDict, front = least recently
used) and `self.max_size`. -/
structure LRUCacheState (V : Type) where
  entries : List (String × V)
  maxSize : Nat
deriving Repr, DecidableEq

variable {V : Type}

/-- `key in self.cache` / `self.cache[key]` as an optional lookup. -/
def lruLookup (c : LRUCacheState V) (k : String) : Option V :=
  (c.entries.find? (fun e => e.1 == k)).map (·.2)

/-- `LRUCache.get`: on a hit, `move_to_end` then return the value; state is
returned alongside the result. -/
def lruGet (c : LRUCacheState V) (k : String) : Option V × LRUCacheState V :=
  match c.entries.find? (fun e => e.1 == k) with
  | none => (none, c)
  | some e =>
      (some e.2,
       { c with entries := c.entries.filter (fun x => x.1 != k) ++ [(k, e.2)] })

/-- `LRUCache.set`: `move_to_end` when present, write the value at the back,
then `popitem(last=False)` when over capacity.  (Moving-then-assigning, or
plain insertion of a fresh key, both leave `(k, v)` at the back with every
other entry in its previous relative order.) -/
def lruSet (c : LRUCacheState V) (k : String) (v : V) : LRUCacheState V :=
  let moved := c.entries.filter (fun x => x.1 != k) ++ [(k, v)]
  if moved.length > c.maxSize then { c with entries := moved.drop 1 }
  else { c with entries := moved }

/-- `LRUCache.delete`. -/
def lruDelete (c : LRUCacheState V) (k : String) : LRUCacheState V :=
  { c with entries := c.entries.filter (fun x => x.1 != k) }

/-- `LRUCache.clear`. -/
def lruClear (c : LRUCacheState V) : LRUCacheState V :=
  { c with entries := [] }

/-- `LRUCache.size`. -/
def lruSize (c : LRUCacheState V) : Nat := c.entries.length

/-! ## cache.py: TTLCache -/

/-- State of `TTLCache`: entries store `(value, expire_time)`. -/
structure TTLCacheState (V : Type) where
  entries : List (String × V × Int)
  maxSize : Nat
  defaultTtl : Int
deriving Repr, DecidableEq

/-- `value, expire_time = self.cache[key]` (when present). -/
def ttlLookup (c : TTLCacheState V) (k : String) : Option (V × Int) :=
  (c.entries.find? (fun e => e.1 == k)).map (·.2)

/-- `ttl = ttl or self.default_ttl`: Python `or` takes the default both when
`ttl` is `None` and when it is the (falsy) integer `0`. -/
def ttlResolve (c : TTLCacheState V) (ttl : Option Int) : Int :=
  match ttl with
  | none => c.defaultTtl
  | some t => if t = 0 then c.defaultTtl else t

/-- `TTLCache.set` at wall-clock time `now`. -/
def ttlSet (c : TTLCacheState V) (k : String) (v : V) (ttl : Option Int)
    (now : Int) : TTLCacheState V :=
  let exp := now + ttlResolve c ttl
  let moved := c.entries.filter (fun x => x.1 != k) ++ [(k, (v, exp))]
  if moved.length > c.maxSize then { c with entries := moved.drop 1 }
  else { c with entries := moved }

/-- `TTLCache.get` at wall-clock time `now`: a hit strictly past its expiry
time is deleted and reported absent; an unexpired hit is promoted. -/
def ttlGet (c : TTLCacheState V) (k : String) (now : Int) :
    Option V × TTLCacheState V :=
  match c.entries.find? (fun e => e.1 == k) with
  | none => (none, c)
  | some e =>
      if now > e.2.2 then
        (none, { c with entries := c.entries.filter (fun x => x.1 != k) })
      else
        (some e.2.1,
         { c with entries :=
            c.entries.filter (fun x => x.1 != k) ++ [(k, e.2)] })

/-- `TTLCache.delete`. -/
def ttlDelete (c : TTLCacheState V) (k : String) : TTLCacheState V :=
  { c with entries := c.entries.filter (fun x => x.1 != k) }

/-- `TTLCache.clear`. -/
def ttlClear (c : TTLCacheState V) : TTLCacheState V :=
  { c with entries := [] }

/-- `TTLCache.size`. -/
def ttlSize (c : TTLCacheState V) : Nat := c.entries.length

/-- One operation of the public LRU cache interface. -/
inductive LRUOp (V : Type) where
  | get (k : String)
  | set (k : String) (v : V)
  | del (k : String)
  | clear
deriving Repr

/-- Apply one LRU operation to the state (the `get` result is discarded). -/
def lruStep (c : LRUCacheState V) : LRUOp V → LRUCacheState V
  | .get k => (lruGet c k).2
  | .set k v => lruSet c k v
  | .del k => lruDelete c k
  | .clear => lruClear c

/-- Run a sequence of LRU operations. -/
def lruRun (c : LRUCacheState V) (ops : List (LRUOp V)) : LRUCacheState V :=
  ops.foldl lruStep c

/-- One operation of the public TTL cache interface, carrying the wall-clock
time at which it is issued. -/
inductive TTLOp (V : Type) where
  | get (k : String) (now : Int)
  | set (k : String) (v : V) (ttl : Option Int) (now : Int)
  | del (k : String)
  | clear
deriving Repr

/-- Apply one TTL operation to the state. -/
def ttlStep (c : TTLCacheState V) : TTLOp V → TTLCacheState V
  | .get k now => (ttlGet c k now).2
  | .set k v ttl now => ttlSet c k v ttl now
  | .del k => ttlDelete c k
  | .clear => ttlClear c

/-- Run a sequence of TTL operations. -/
def ttlRun (c : TTLCacheState V) (ops : List (TTLOp V)) : TTLCacheState V :=
  ops.foldl ttlStep c

/-! ## Python string helpers -/

/-- Is `p` a contiguous segment of the second list? -/
def listInfix (p : List Char) : List Char → Bool
  | [] => p.isEmpty
  | c :: rest => p.isPrefixOf (c :: rest) || listInfix p rest

/-- Python `sub in s` substring test. -/
def strContains (s sub : String) : Bool :=
  listInfix sub.data s.data

/-- Python `str.lower()` (ASCII). -/
def pyLower (s : String) : String :=
  String.mk (s.data.map Char.toLower)

/-- Python `str.startswith(pre)`. -/
def startsWithStr (pre s : String) : Bool :=
  pre.data.isPrefixOf s.data

/-- Python `str.splitlines(keepends=True)` for the standard line breaks
`\r\n`, `\n` and `\r` (the exotic unicode breaks Python also recognises do
not occur in this repository's data and are elided). -/
def splitLinesKeepEnds (s : String) : List String :=
  go s.data []
where
  go : List Char → List Char → List String
    | [], cur => if cur.isEmpty then [] else [String.mk cur.reverse]
    | '\r' :: '\n' :: rest, cur => String.mk (('\n' :: '\r' :: cur).reverse) :: go rest []
    | '\n' :: rest, cur => String.mk (('\n' :: cur).reverse) :: go rest []
    | '\r' :: rest, cur => String.mk (('\r' :: cur).reverse) :: go rest []
    | c :: rest, cur => go rest (c :: cur)

/-- Python `str.rstrip('\n\r')`. -/
def rstripNL (s : String) : String :=
  String.mk ((s.data.reverse.dropWhile (fun c => c = '\n' || c = '\r')).reverse)

/-- Python `str.title()`: alphabetic characters are uppercased after a
non-alphabetic character and lowercased otherwise. -/
def pyTitle (s : String) : String :=
  (s.data.foldl
    (fun (acc : List Char × Bool) c =>
      if c.isAlpha then
        ((if acc.2 then c.toLower else c.toUpper) :: acc.1, true)
      else (c :: acc.1, false))
    ([], false)).1.reverse |> String.mk

/-! ## jsonl_parser.py: `_escape_html` -/

/-- `_escape_html`: the source chains
`.replace('&','&amp;').replace('<','&lt;').replace('>','&gt;')
.replace('"','&quot;').replace("'",'&#x27;')`.  Because '&' is replaced
first and none of the later patterns occurs inside an inserted entity, the
chain acts independently on each character of the input; it is embedded as
that per-character map. -/
def escChar (c : Char) : String :=
  if c = '&' then "&amp;"
  else if c = '<' then "&lt;"
  else if c = '>' then "&gt;"
  else if c = '"' then "&quot;"
  else if c = '\'' then "&#x27;"
  else String.singleton c

/-- Concatenation of the per-character escapes. -/
def escList : List Char → String
  | [] => ""
  | c :: cs => escChar c ++ escList cs

/-- `JSONLParser._escape_html`. -/
def escapeHtml (s : String) : String :=
  escList s.data

/-! ## difflib model (`difflib.unified_diff` with `SequenceMatcher(None, a, b)`)

The diff renderer calls `difflib.unified_diff(old_lines, new_lines,
fromfile=..., tofile=..., lineterm="")`.  `SequenceMatcher` is constructed
with `isjunk=None`, so the junk set is always empty; the `autojunk`
popularity heuristic (elements occurring more than `n//100 + 1` times when
`n >= 200`) is modelled.  All of the following transcribes CPython's
`difflib.py`. -/

/-- Ascending positions of `x` in `b` (the entry `b2j[x]`), with popular
elements removed by the autojunk heuristic. -/
def b2j (b : List String) (x : String) : List Nat :=
  let ps := (List.range b.length).filter (fun j => b.getD j "" == x && j < b.length)
  if b.length ≥ 200 ∧ ps.length > b.length / 100 + 1 then [] else ps

/-- One row `i` of the `find_longest_match` dynamic program: iterate over
`b2j[a[i]]` (skipping `j < blo`, stopping at `j >= bhi`), extending chains
from the previous row's `j2len` and tracking the best block.  Python's
`i-k+1` / `j-k+1` are written `i+1-k` / `j+1-k` so that Nat subtraction
agrees with the (always non-negative) Python value. -/
def fPrev (f : Nat → Nat) : Nat → Nat
  | 0 => 0
  | j' + 1 => f j'

/-- One iteration of the inner loop of the `find_longest_match` dynamic
program: `k = newj2len[j] = j2len.get(j-1, 0) + 1` followed by the best-block
update.  `f` is the PREVIOUS row's `j2len` (read-only during the row);
`acc.2` is `newj2len`. -/
def flmRowStep (i : Nat) (f : Nat → Nat)
    (acc : (Nat × Nat × Nat) × (Nat → Nat)) (j : Nat) :
    (Nat × Nat × Nat) × (Nat → Nat) :=
  let k := fPrev f j + 1
  let nf := fun x => if x = j then k else acc.2 x
  let nb := if k > acc.1.2.2 then (i + 1 - k, j + 1 - k, k) else acc.1
  (nb, nf)

def flmRow (a b : List String) (blo bhi i : Nat)
    (st : (Nat × Nat × Nat) × (Nat → Nat)) : (Nat × Nat × Nat) × (Nat → Nat) :=
  let js := ((b2j b (a.getD i "")).takeWhile (fun j => j < bhi)).filter
    (fun j => blo ≤ j)
  js.foldl (flmRowStep i st.2) (st.1, fun _ => 0)

/-- The dynamic-programming phase of `find_longest_match` over rows
`alo..ahi-1`; initial best is `(alo, blo, 0)`. -/
def flmDP (a b : List String) (alo ahi blo bhi : Nat) : Nat × Nat × Nat :=
  ((List.range' alo (ahi - alo)).foldl
    (fun st i => flmRow a b blo bhi i st)
    ((alo, blo, 0), (fun _ => 0 : Nat → Nat))).1

/-- The first extension loop of `find_longest_match`: grow the best block
leftwards over equal elements (the junk set is empty, so `not isbjunk(...)`
is always true).  Structural recursion on `besti`: when `besti = 0` the loop
condition `alo < besti` is false, exactly as in the source. -/
def flmExtendLeft (a b : List String) (alo blo : Nat) :
    Nat → Nat → Nat → Nat × Nat × Nat
  | 0, bestj, bestk => (0, bestj, bestk)
  | besti + 1, bestj, bestk =>
    if alo < besti + 1 ∧ blo < bestj ∧
        a.get? besti = b.get? (bestj - 1) then
      flmExtendLeft a b alo blo besti (bestj - 1) (bestk + 1)
    else (besti + 1, bestj, bestk)

/-- The second extension loop of `find_longest_match`, with explicit fuel.
Each iteration increases `bestk` by 1 while `besti + bestk < ahi`, so with
initial fuel `ahi - (besti + bestk)` the fuel runs out exactly when the loop
condition has become false: the semantics is that of the unbounded loop. -/
def flmExtendRightAux (a b : List String) (ahi bhi besti bestj : Nat) :
    Nat → Nat → Nat
  | 0, bestk => bestk
  | fuel + 1, bestk =>
    if besti + bestk < ahi ∧ bestj + bestk < bhi ∧
        a.get? (besti + bestk) = b.get? (bestj + bestk) then
      flmExtendRightAux a b ahi bhi besti bestj fuel (bestk + 1)
    else bestk

/-- The second extension loop of `find_longest_match`: grow the best block
rightwards over equal elements. -/
def flmExtendRight (a b : List String) (ahi bhi besti bestj : Nat)
    (bestk : Nat) : Nat :=
  flmExtendRightAux a b ahi bhi besti bestj (ahi - (besti + bestk)) bestk

/-- `SequenceMatcher.find_longest_match(alo, ahi, blo, bhi)`.  The two
junk-absorbing extension loops of the original are omitted: with
`isjunk=None` the junk set is empty and they never execute. -/
def findLongestMatch (a b : List String) (alo ahi blo bhi : Nat) :
    Nat × Nat × Nat :=
  let d := flmDP a b alo ahi blo bhi
  let l := flmExtendLeft a b alo blo d.1 d.2.1 d.2.2
  let k := flmExtendRight a b ahi bhi l.1 l.2.1 l.2.2
  (l.1, l.2.1, k)

/-- The queue phase of `get_matching_blocks`.  The order in which queue
entries are processed does not affect the set of found blocks (each entry is
processed independently), and the result list is sorted afterwards, so the
queue is consumed from the front.  The fuel `a.length + b.length + 2`
strictly exceeds the total interval measure, which decreases at every step,
so it is never exhausted. -/
def mbAux (a b : List String) :
    Nat → List (Nat × Nat × Nat × Nat) → List (Nat × Nat × Nat) →
    List (Nat × Nat × Nat)
  | _, [], acc => acc
  | 0, _, acc => acc
  | fuel + 1, (alo, ahi, blo, bhi) :: rest, acc =>
    let m := findLongestMatch a b alo ahi blo bhi
    if m.2.2 = 0 then mbAux a b fuel rest acc
    else
      let q1 := if alo < m.1 ∧ blo < m.2.1 then [(alo, m.1, blo, m.2.1)] else []
      let q2 := if m.1 + m.2.2 < ahi ∧ m.2.1 + m.2.2 < bhi then
        [(m.1 + m.2.2, ahi, m.2.1 + m.2.2, bhi)] else []
      mbAux a b fuel (q1 ++ q2 ++ rest) (m :: acc)

/-- Lexicographic order on block triples (Python tuple `sort()`). -/
def blockLe (x y : Nat × Nat × Nat) : Bool :=
  decide (x.1 < y.1 ∨ (x.1 = y.1 ∧ (x.2.1 < y.2.1 ∨
    (x.2.1 = y.2.1 ∧ x.2.2 ≤ y.2.2))))

/-- Insertion into a sorted list (used for `matching_blocks.sort()`). -/
def insertSorted (x : Nat × Nat × Nat) : List (Nat × Nat × Nat) →
    List (Nat × Nat × Nat)
  | [] => [x]
  | y :: ys => if blockLe x y then x :: y :: ys else y :: insertSorted x ys

/-- `matching_blocks.sort()` (insertion sort; the order is total so the
sorted result is unique up to equal elements). -/
def sortBlocks : List (Nat × Nat × Nat) → List (Nat × Nat × Nat)
  | [] => []
  | x :: xs => insertSorted x (sortBlocks xs)

/-- The adjacent-block merge at the end of `get_matching_blocks`, plus the
`(la, lb, 0)` sentinel. -/
def mergeBlocks (la lb : Nat) (blocks : List (Nat × Nat × Nat)) :
    List (Nat × Nat × Nat) :=
  let st := blocks.foldl
    (fun (st : (Nat × Nat × Nat) × List (Nat × Nat × Nat)) blk =>
      let i1 := st.1.1
      let j1 := st.1.2.1
      let k1 := st.1.2.2
      if i1 + k1 = blk.1 ∧ j1 + k1 = blk.2.1 then
        ((i1, j1, k1 + blk.2.2), st.2)
      else if k1 ≠ 0 then (blk, st.2 ++ [(i1, j1, k1)])
      else (blk, st.2))
    ((0, 0, 0), [])
  (if st.1.2.2 ≠ 0 then st.2 ++ [st.1] else st.2) ++ [(la, lb, 0)]

/-- `SequenceMatcher.get_matching_blocks()`. -/
def getMatchingBlocks (a b : List String) : List (Nat × Nat × Nat) :=
  mergeBlocks a.length b.length
    (sortBlocks (mbAux a b (a.length + b.length + 2)
      [(0, a.length, 0, b.length)] []))

/-- An opcode `(tag, i1, i2, j1, j2)` of `get_opcodes`. -/
structure Opcode where
  tag : String
  i1 : Nat
  i2 : Nat
  j1 : Nat
  j2 : Nat
deriving Repr, DecidableEq

/-- `SequenceMatcher.get_opcodes()`. -/
def getOpcodes (a b : List String) : List Opcode :=
  (getMatchingBlocks a b).foldl
    (fun (st : Nat × Nat × List Opcode) blk =>
      let i := st.1
      let j := st.2.1
      let tag : String :=
        if i < blk.1 ∧ j < blk.2.1 then "replace"
        else if i < blk.1 then "delete"
        else if j < blk.2.1 then "insert"
        else ""
      let ans := if tag ≠ "" then st.2.2 ++ [⟨tag, i, blk.1, j, blk.2.1⟩]
        else st.2.2
      let i' := blk.1 + blk.2.2
      let j' := blk.2.1 + blk.2.2
      let ans := if blk.2.2 ≠ 0 then ans ++ [⟨"equal", blk.1, i', blk.2.1, j'⟩]
        else ans
      (i', j', ans))
    (0, 0, []) |>.2.2

/-- `SequenceMatcher.get_grouped_opcodes(n=3)`. -/
def groupedOpcodes (a b : List String) : List (List Opcode) :=
  let n := 3
  let codes := getOpcodes a b
  let codes : List Opcode :=
    if codes.isEmpty then [⟨"equal", 0, 1, 0, 1⟩] else codes
  let codes : List Opcode := match codes with
    | [] => []
    | c :: rest =>
      (if c.tag = "equal" then
        ⟨c.tag, max c.i1 (c.i2 - n), c.i2, max c.j1 (c.j2 - n), c.j2⟩ else c)
        :: rest
  let codes : List Opcode := match codes.getLast? with
    | none => codes
    | some c => codes.dropLast ++
      [if c.tag = "equal" then
        ⟨c.tag, c.i1, min c.i2 (c.i1 + n), c.j1, min c.j2 (c.j1 + n)⟩ else c]
  let st := codes.foldl
    (fun (st : List Opcode × List (List Opcode)) c =>
      if c.tag = "equal" ∧ c.i2 - c.i1 > n + n then
        ([⟨c.tag, max c.i1 (c.i2 - n), c.i2, max c.j1 (c.j2 - n), c.j2⟩],
         st.2 ++ [st.1 ++
           [⟨c.tag, c.i1, min c.i2 (c.i1 + n), c.j1, min c.j2 (c.j1 + n)⟩]])
      else (st.1 ++ [c], st.2))
    ([], [])
  if st.1 ≠ [] ∧ ¬(st.1.length = 1 ∧ (st.1.headD ⟨"", 0, 0, 0, 0⟩).tag = "equal")
  then st.2 ++ [st.1] else st.2

/-- Python slice `l[i:j]` for `0 ≤ i ≤ j`. -/
def pySlice (l : List String) (i j : Nat) : List String :=
  (l.take j).drop i

/-- `_format_range_unified(start, stop)`. -/
def formatRangeUnified (start stop : Nat) : String :=
  let beginning := start + 1
  let length := stop - start
  if length = 1 then toString beginning
  else toString (if length = 0 then beginning - 1 else beginning) ++ "," ++
    toString length

/-- `difflib.unified_diff(a, b, fromfile, tofile, lineterm="")` as the list
of produced lines. -/
def unifiedDiff (a b : List String) (fromfile tofile : String) :
    List String :=
  ((groupedOpcodes a b).foldl
    (fun (st : Bool × List String) group =>
      let out := if !st.1 then st.2 ++ ["--- " ++ fromfile, "+++ " ++ tofile]
        else st.2
      let first := group.headD ⟨"", 0, 0, 0, 0⟩
      let last := group.getLastD ⟨"", 0, 0, 0, 0⟩
      let out := out ++ ["@@ -" ++ formatRangeUnified first.i1 last.i2 ++
        " +" ++ formatRangeUnified first.j1 last.j2 ++ " @@"]
      let out := group.foldl
        (fun out2 c =>
          if c.tag = "equal" then
            out2 ++ (pySlice a c.i1 c.i2).map (" " ++ ·)
          else
            let out2 := if c.tag = "replace" ∨ c.tag = "delete" then
              out2 ++ (pySlice a c.i1 c.i2).map ("-" ++ ·) else out2
            if c.tag = "replace" ∨ c.tag = "insert" then
              out2 ++ (pySlice b c.j1 c.j2).map ("+" ++ ·) else out2)
        out
      (true, out))
    (false, [])).2

/-! ## jsonl_parser.py: `_generate_diff_html` -/

/-- The leftmost match of the hunk-header regular expression
`-(\d+)(?:,\d+)?\s+\+(\d+)(?:,\d+)?`, returning the two captured numbers. -/
def parseHunkNums (s : String) : Option (Nat × Nat) :=
  scan s.data
where
  digitsToNat (ds : List Char) : Nat :=
    ds.foldl (fun acc c => acc * 10 + (c.toNat - 48)) 0
  matchAt : List Char → Option (Nat × Nat)
    | '-' :: rest =>
      let ds1 := rest.takeWhile Char.isDigit
      if ds1.isEmpty then none
      else
        let rest1 := rest.dropWhile Char.isDigit
        let rest2 := match rest1 with
          | ',' :: r =>
            if (r.takeWhile Char.isDigit).isEmpty then rest1
            else r.dropWhile Char.isDigit
          | _ => rest1
        let ws := rest2.takeWhile Char.isWhitespace
        if ws.isEmpty then none
        else
          match rest2.dropWhile Char.isWhitespace with
          | '+' :: rest3 =>
            let ds2 := rest3.takeWhile Char.isDigit
            if ds2.isEmpty then none
            else some (digitsToNat ds1, digitsToNat ds2)
          | _ => none
    | _ => none
  scan : List Char → Option (Nat × Nat)
    | [] => none
    | c :: rest =>
      match matchAt (c :: rest) with
      | some r => some r
      | none => scan rest

/-- Python str.strip() with no arguments: remove leading and trailing
whitespace.  Character-list implementation of String.trim, which does not
reduce in the kernel on computed strings. -/
def stripWS (s : String) : String :=
  String.mk (((s.data.dropWhile Char.isWhitespace).reverse.dropWhile
    Char.isWhitespace).reverse)

/-- Processing of one unified-diff line inside `_generate_diff_html`: the
state is `(line_num_old, line_num_new, html_lines)`.  The branch order is the
source's `startswith` chain (`"@@"`, then `"---"`/`"+++"`, then `"-"`, `"+"`,
`" "`), expressed as patterns on the line's characters. -/
def diffLineRender (st : Nat × Nat × List String) (line : String) :
    Nat × Nat × List String :=
  let lo := st.1
  let ln := st.2.1
  let out := st.2.2
  match line.data with
  | '@' :: '@' :: _ =>
    let nums := (parseHunkNums line).getD (lo, ln)
    (nums.1, nums.2,
     out ++ ["<div class=\"diff-hunk-header\">" ++ stripWS line ++ "</div>"])
  | '-' :: '-' :: '-' :: _ => (lo, ln, out)
  | '+' :: '+' :: '+' :: _ => (lo, ln, out)
  | '-' :: rest =>
    (lo + 1, ln,
     out ++ ["<div class=\"diff-line diff-removed\">",
       "<span class=\"diff-line-number\">" ++ toString lo ++ "</span>",
       "<span class=\"diff-marker\">-</span>",
       "<span class=\"diff-content\">" ++ escapeHtml (rstripNL (String.mk rest))
         ++ "</span>",
       "</div>"])
  | '+' :: rest =>
    (lo, ln + 1,
     out ++ ["<div class=\"diff-line diff-added\">",
       "<span class=\"diff-line-number\">" ++ toString ln ++ "</span>",
       "<span class=\"diff-marker\">+</span>",
       "<span class=\"diff-content\">" ++ escapeHtml (rstripNL (String.mk rest))
         ++ "</span>",
       "</div>"])
  | ' ' :: rest =>
    (lo + 1, ln + 1,
     out ++ ["<div class=\"diff-line diff-context\">",
       "<span class=\"diff-line-number\">" ++ toString lo ++ "</span>",
       "<span class=\"diff-marker\"> </span>",
       "<span class=\"diff-content\">" ++ escapeHtml (rstripNL (String.mk rest))
         ++ "</span>",
       "</div>"])
  | _ => (lo, ln, out)

/-- The full `html_lines` list built by `_generate_diff_html` (header,
rendered body, closing tags), for a non-empty diff. -/
def diffHtmlLines (oldString newString filePath : String) : List String :=
  let diff := unifiedDiff (splitLinesKeepEnds oldString)
    (splitLinesKeepEnds newString) ("a/" ++ filePath) ("b/" ++ filePath)
  ["<div class=\"diff-container\">",
   "<div class=\"diff-header\">📝 <strong>File:</strong> " ++ filePath
     ++ "</div>",
   "<div class=\"diff-content\">"]
  ++ (diff.foldl diffLineRender (0, 0, [])).2.2
  ++ ["</div>", "</div>"]

/-- `JSONLParser._generate_diff_html(old_string, new_string, file_path)`. -/
def generateDiffHtml (oldString newString filePath : String) : String :=
  let diff := unifiedDiff (splitLinesKeepEnds oldString)
    (splitLinesKeepEnds newString) ("a/" ++ filePath) ("b/" ++ filePath)
  if diff.isEmpty then
    "<div class='diff-no-changes'>No changes detected in " ++ filePath
      ++ "</div>"
  else
    String.intercalate "\n" (diffHtmlLines oldString newString filePath)

/-! ## Python str() / repr() / json.dumps models

`str`/`repr` of JSON-decoded values and `json.dumps` are Python-library
functions; they are modelled executably below.  The quote-escaping `repr`
performs inside strings and `json.dumps`'s `indent=2` whitespace are elided —
no claim inspects those outputs beyond being some string. -/

mutual

/-- Model of Python `repr()` on a JSON-decoded value. -/
def pyRepr : JValue → String
  | .null => "None"
  | .bool true => "True"
  | .bool false => "False"
  | .num n => toString n
  | .str s => "'" ++ s ++ "'"
  | .arr xs => "[" ++ String.intercalate ", " (pyReprItems xs) ++ "]"
  | .obj fs => "\x7b" ++ String.intercalate ", " (pyReprFields fs) ++ "\x7d"

def pyReprItems : List JValue → List String
  | [] => []
  | x :: xs => pyRepr x :: pyReprItems xs

def pyReprFields : List (String × JValue) → List String
  | [] => []
  | e :: es => ("'" ++ e.1 ++ "': " ++ pyRepr e.2) :: pyReprFields es

end

/-- Model of Python `str()` on a JSON-decoded value. -/
def pyStr : JValue → String
  | .str s => s
  | v => pyRepr v

mutual

/-- Model of `json.dumps` (whitespace-normalised). -/
def jdumps : JValue → String
  | .null => "null"
  | .bool true => "true"
  | .bool false => "false"
  | .num n => toString n
  | .str s => "\"" ++ s ++ "\""
  | .arr xs => "[" ++ String.intercalate ", " (jdumpsItems xs) ++ "]"
  | .obj fs => "\x7b" ++ String.intercalate ", " (jdumpsFields fs) ++ "\x7d"

def jdumpsItems : List JValue → List String
  | [] => []
  | x :: xs => jdumps x :: jdumpsItems xs

def jdumpsFields : List (String × JValue) → List String
  | [] => []
  | e :: es => ("\"" ++ e.1 ++ "\": " ++ jdumps e.2) :: jdumpsFields es

end

/-! ## jsonl_parser.py: `_contains_code` -/

/-- `\w` (ASCII approximation — the spec keeps the heuristic
ASCII-pattern-based). -/
def isWordChar (c : Char) : Bool :=
  c.isAlpha || c.isDigit || c = '_'

/-- Does the predicate hold at some suffix position (the semantics of
`re.search`)? -/
def anySuffix (p : List Char → Bool) : List Char → Bool
  | [] => p []
  | c :: rest => p (c :: rest) || anySuffix p rest

/-- Match one of the `_contains_code` regular expressions at this position:
triple-backtick fence, `def \w+\(`, `class \w+`, `import \w+`, `from \w+`,
`<[a-zA-Z][^>]*>`, `\$\s*\w+`. -/
def codeMatchAt (l : List Char) : Bool :=
  matchFence l
  || matchKw "def ".data true l
  || matchKw "class ".data false l
  || matchKw "import ".data false l
  || matchKw "from ".data false l
  || matchTag l
  || matchShell l
where
  matchFence (l : List Char) : Bool :=
    match l with
    | '`' :: '`' :: '`' :: rest =>
      ((rest.dropWhile isWordChar).headD ' ') = '\n'
    | _ => false
  matchKw (kw : List Char) (needParen : Bool) (l : List Char) : Bool :=
    if kw.isPrefixOf l then
      let rest := l.drop kw.length
      let w := rest.takeWhile isWordChar
      if w.isEmpty then false
      else if needParen then ((rest.dropWhile isWordChar).headD ' ') = '('
      else true
    else false
  matchTag (l : List Char) : Bool :=
    match l with
    | '<' :: c :: rest => c.isAlpha && rest.contains '>'
    | _ => false
  matchShell (l : List Char) : Bool :=
    match l with
    | '$' :: rest => isWordChar ((rest.dropWhile Char.isWhitespace).headD ' ')
    | _ => false

/-- `JSONLParser._contains_code(content)`: `False` for non-strings, else
`re.search` of any of the code patterns. -/
def containsCode : JValue → Bool
  | .str s => anySuffix codeMatchAt s.data
  | _ => false

/-- Python `value == "lit"` where `value` came from `dict.get`: true exactly
when the value is that string. -/
def jIsStr (v : Option JValue) (s : String) : Bool :=
  match v with
  | some (.str t) => t == s
  | _ => false

/-! ## jsonl_parser.py: `_parse_structured_content` -/

/-- The parts appended to `parsed_parts` for one content item (usually one
part; an edit-style `tool_result` can append two).  Uncaught Python
exceptions (`.get`/`.items`/`.splitlines` on a wrong-typed value) become
`Except.error`.  A non-string `text` item would make the final
`"\n\n".join` raise; that error is reported at the item instead — the
call errors either way. -/
def parseContentItem (item : JValue) : Except String (List String) :=
  match item with
  | .obj fs =>
    if jIsStr (JValue.get? fs "type") "text" then
      match JValue.getD fs "text" (.str "") with
      | .str s => .ok [s]
      | _ => .error "TypeError: join of non-str"
    else if jIsStr (JValue.get? fs "type") "image" then
      .ok ["📷 **[Image attached]**"]
    else if jIsStr (JValue.get? fs "type") "tool_use" then
      let toolName := JValue.getD fs "name" (.str "unknown_tool")
      match JValue.getD fs "input" (.obj []) with
      | .obj ps =>
        if jIsStr (some toolName) "Edit"
            && ((JValue.get? ps "old_string").getD .null).truthy
            && ((JValue.get? ps "new_string").getD .null).truthy then
          let filePath := JValue.getD ps "file_path" (.str "unknown_file")
          match JValue.getD ps "old_string" (.str ""),
              JValue.getD ps "new_string" (.str "") with
          | .str o, .str n =>
            .ok ["✏️ **Edit Tool: " ++ pyStr filePath ++ "**\n"
              ++ generateDiffHtml o n (pyStr filePath)]
          | _, _ => .error "AttributeError: splitlines on non-str"
        else
          if ps.isEmpty then
            .ok ["🔧 **Tool Used: " ++ pyStr toolName ++ "**\n  (no parameters)"]
          else
            .ok ["🔧 **Tool Used: " ++ pyStr toolName ++ "**\n"
              ++ String.intercalate "\n" (ps.map (fun e =>
                  match e.2 with
                  | .str s =>
                    if s.length > 100 then
                      "  **" ++ e.1 ++ "**: " ++ s.take 100 ++ "..."
                    else "  **" ++ e.1 ++ "**: " ++ s
                  | v => "  **" ++ e.1 ++ "**: " ++ pyStr v))]
      | other =>
        -- `input` held a non-dict: `.get` (Edit branch) or `.items()` raises;
        -- a falsy non-dict (`""`, `0`, …) takes the "(no parameters)" branch.
        if jIsStr (some toolName) "Edit" then .error "AttributeError: get on non-dict"
        else if other.truthy then .error "AttributeError: items on non-dict"
        else .ok ["🔧 **Tool Used: " ++ pyStr toolName ++ "**\n  (no parameters)"]
    else if jIsStr (JValue.get? fs "type") "tool_result" then
      let resultContent := JValue.getD fs "content" (.str "")
      let tur := JValue.getD fs "toolUseResult" (.obj [])
      if tur.truthy then
        match tur with
        | .obj ts =>
          if ((JValue.get? ts "oldString").getD .null).truthy
              && ((JValue.get? ts "newString").getD .null).truthy then
            let filePath := JValue.getD ts "filePath" (.str "unknown_file")
            match JValue.getD ts "oldString" (.str ""),
                JValue.getD ts "newString" (.str "") with
            | .str o, .str n =>
              let diffPart := "✅ **Edit Result: " ++ pyStr filePath ++ "**\n"
                ++ generateDiffHtml o n (pyStr filePath)
              match resultContent with
              | .str s =>
                if !(s.trim.isEmpty) then
                  .ok [diffPart, "📋 **Tool Output:**\n```\n" ++ s ++ "\n```"]
                else .ok [diffPart]
              | _ => .ok [diffPart]
            | _, _ => .error "AttributeError: splitlines on non-str"
          else renderPlainResult resultContent
        | _ => .error "AttributeError: get on non-dict"
      else renderPlainResult resultContent
    else
      .ok ["ℹ️ **" ++ pyStr (JValue.getD fs "type" (.str "Unknown"))
        ++ ":**\n```json\n" ++ jdumps item ++ "\n```"]
  | .str s => .ok [s]
  | other => .ok [pyStr other]
where
  renderPlainResult (resultContent : JValue) : Except String (List String) :=
    match resultContent with
    | .str s =>
      if strContains s "... (output truncated)" then
        .ok ["📋 **Tool Output:**\n```\n" ++ s ++ "\n```"]
      else if s.length > 5000 then
        .ok ["📋 **Tool Output:**\n```\n" ++ s.take 5000
          ++ "\n... (output truncated by viewer)" ++ "\n```"]
      else .ok ["📋 **Tool Output:**\n```\n" ++ s ++ "\n```"]
    | v => .ok ["📋 **Tool Output:**\n```json\n" ++ jdumps v ++ "\n```"]

/-- `JSONLParser._parse_structured_content(content_list)`. -/
def parseStructuredContent (items : List JValue) : Except String String := do
  let parts ← items.foldlM
    (fun acc item => do
      let ps ← parseContentItem item
      pure (acc ++ ps))
    ([] : List String)
  pure (String.intercalate "\n\n" parts)

/-! ## jsonl_parser.py: `_parse_message` (claude branch) and filtering -/

/-- One parsed message dict produced by `_parse_message` for the claude
parser.  `msgType` is the dict's `"type"` entry; `role`/`uuid`/`has_code`
are `none` when the branch does not put the key into the dict. -/
structure Msg where
  line_number : Nat
  raw_type : JValue
  timestamp : JValue
  msgType : String
  role : Option String
  content : JValue
  display_type : String
  uuid : Option JValue
  has_code : Option Bool
deriving Repr

/-- `JSONLParser._parse_message(data, line_num)`, claude branch.  A non-dict
`data`, a non-dict `message` value, or a role/type value without `.title()`
raises (modelled as `Except.error`). -/
def parseMsgClaude (data : JValue) (lineNum : Nat) : Except String Msg :=
  match data with
  | .obj fs =>
    let rawType := JValue.getD fs "type" (.str "unknown")
    let timestamp := (JValue.get? fs "timestamp").getD .null
    if jIsStr (JValue.get? fs "type") "summary" then
      .ok { line_number := lineNum, raw_type := rawType, timestamp := timestamp,
            msgType := "summary", role := none,
            content := JValue.getD fs "summary" (.str ""),
            uuid := some (JValue.getD fs "leafUuid" (.str "")),
            display_type := "Summary", has_code := none }
    else if jIsStr (JValue.get? fs "type") "user"
        || jIsStr (JValue.get? fs "type") "assistant" then
      match JValue.getD fs "message" (.obj []) with
      | .obj ms => do
        let content ← match JValue.getD ms "content" (.str "") with
          | .arr items => do pure (JValue.str (← parseStructuredContent items))
          | other => pure other
        let roleStr := match JValue.get? fs "type" with
          | some (.str s) => s
          | _ => ""
        .ok { line_number := lineNum, raw_type := rawType,
              timestamp := timestamp, msgType := "message",
              role := some roleStr, content := content,
              display_type := pyTitle roleStr,
              uuid := none, has_code := some (containsCode content) }
      | _ => .error "AttributeError: get on non-dict message"
    else if (JValue.get? fs "role").isSome then
      do
        let content ← match JValue.getD fs "content" (.str "") with
          | .arr items => do pure (JValue.str (← parseStructuredContent items))
          | other => pure other
        match JValue.getD fs "role" (.str "") with
        | .str roleStr =>
          .ok { line_number := lineNum, raw_type := rawType,
                timestamp := timestamp, msgType := "message",
                role := some roleStr, content := content,
                display_type := pyTitle roleStr,
                uuid := none, has_code := some (containsCode content) }
        | _ => .error "AttributeError: title on non-str role"
    else
      match JValue.getD fs "type" (.str "Unknown") with
      | .str t =>
        .ok { line_number := lineNum, raw_type := rawType,
              timestamp := timestamp, msgType := "other", role := none,
              content := .str (jdumps data), display_type := pyTitle t,
              uuid := none, has_code := none }
      | _ => .error "AttributeError: title on non-str type"
  | _ => .error "AttributeError: get on non-dict line"

/-- `JSONLParser._should_include_message(message, search, message_type)`:
an empty or absent filter passes everything (Python `if message_type:` /
`if search:` are truthiness tests); the role filter compares
`message.get("role", "").lower()`, the search is a case-insensitive
substring test on `str(message.get("content", ""))`. -/
def shouldInclude (m : Msg) (search messageType : Option String) : Bool :=
  let typeOk :=
    match messageType with
    | none => true
    | some t =>
      if t.isEmpty then true
      else pyLower (m.role.getD "") == pyLower t
  if !typeOk then false
  else
    match search with
    | none => true
    | some q =>
      if q.isEmpty then true
      else strContains (pyLower (pyStr m.content)) (pyLower q)

/-! ## jsonl_parser.py: `get_conversation` (claude branch) -/

/-- The dict returned by `get_conversation`.  `total_pages` is an `Option`:
the early "not found" returns build the dict without a `"total_pages"`
key. -/
structure ConvResult where
  messages : List Msg
  total : Nat
  page : Nat
  per_page : Nat
  total_pages : Option Nat
deriving Repr

/-- The claude read loop: one JSON record per line; a line that fails
`json.loads` (`none`) is skipped (`except json.JSONDecodeError: continue`);
`enumerate(f, 1)` numbers every line, including skipped ones; any other
exception inside `_parse_message` propagates. -/
def claudeLoop (lines : List (Option JValue)) (idx : Nat)
    (search messageType : Option String) : Except String (List Msg) :=
  match lines with
  | [] => .ok []
  | none :: rest => claudeLoop rest (idx + 1) search messageType
  | some j :: rest => do
    let m ← parseMsgClaude j idx
    let tail ← claudeLoop rest (idx + 1) search messageType
    if shouldInclude m search messageType then pure (m :: tail) else pure tail

/-- `JSONLParser.get_conversation` for the claude parser.  The session file
is `none` when `os.path.exists(session_path)` fails (project or session does
not resolve), in which case the early empty-result dict — without a
`"total_pages"` key — is returned; otherwise the file's lines are given as
their `json.loads` results.  Pagination slices `messages[start:end]` with
`start = (page-1)*per_page` (callers enforce `page ≥ 1`, which the `Nat`
slice models), and `total_pages = (total + per_page - 1) // per_page`
(ZeroDivisionError for `per_page = 0`). -/
def getConversationClaude (sessionFile : Option (List (Option JValue)))
    (page perPage : Nat) (search messageType : Option String) :
    Except String ConvResult :=
  match sessionFile with
  | none => .ok { messages := [], total := 0, page := page,
                  per_page := perPage, total_pages := none }
  | some lines => do
    let messages ← claudeLoop lines 1 search messageType
    let total := messages.length
    let startIdx := (page - 1) * perPage
    let endIdx := startIdx + perPage
    if perPage = 0 then .error "ZeroDivisionError"
    else
      .ok { messages := (messages.take endIdx).drop startIdx, total := total,
            page := page, per_page := perPage,
            total_pages := some ((total + perPage - 1) / perPage) }

/-- The unfiltered claude parse of every line (same loop as `claudeLoop`
with no filters applied): used to state that filtering happens before
pagination. -/
def claudeParseAll (lines : List (Option JValue)) (idx : Nat) :
    Except String (List Msg) :=
  match lines with
  | [] => .ok []
  | none :: rest => claudeParseAll rest (idx + 1)
  | some j :: rest => do
    let m ← parseMsgClaude j idx
    let tail ← claudeParseAll rest (idx + 1)
    pure (m :: tail)

/-- Does `_parse_message` accept every line of the file that parsed as JSON
(numbering from `idx`)?  Decidable for a concrete file. -/
def linesOk (lines : List (Option JValue)) (idx : Nat) : Bool :=
  match lines with
  | [] => true
  | none :: rest => linesOk rest (idx + 1)
  | some j :: rest => (parseMsgClaude j idx).isOk && linesOk rest (idx + 1)

/-- A 125-line claude session file whose `i`-th line (0-based) is the user
message with content `toString i`. -/
def c5File : List (Option JValue) :=
  (List.range 125).map (fun i =>
    some (.obj [("type", .str "user"),
                ("message", .obj [("content", .str (toString i))])]))

/-- The message `_parse_message` produces for line `i` of `c5File`. -/
def c5Msg (i : Nat) : Msg :=
  { line_number := i + 1, raw_type := .str "user", timestamp := .null,
    msgType := "message", role := some "user",
    content := .str (toString i), display_type := "User",
    uuid := none, has_code := some false }

/-- The possible shapes of one line produced by `unified_diff`: the two file
headers, a hunk header built from four numbers, or a context/removed line
prefixing an old-file line / an added line prefixing a new-file line. -/
def diffSourceLineShape (a b : List String) (ff tf : String) (l : String) :
    Prop :=
  l = "--- " ++ ff ∨ l = "+++ " ++ tf
  ∨ (∃ n1 n2 n3 n4, l = "@@ -" ++ formatRangeUnified n1 n2 ++ " +"
      ++ formatRangeUnified n3 n4 ++ " @@")
  ∨ (∃ x, x ∈ a ∧ (l = " " ++ x ∨ l = "-" ++ x))
  ∨ (∃ x, x ∈ b ∧ l = "+" ++ x)

/-- The possible shapes of one element of the `html_lines` list built by
`_generate_diff_html`: fixed scaffolding tags, the (unescaped) file-path
header, a hunk-header div built from four numbers, a line-number span, or a
content span whose text went through `_escape_html`. -/
def allowedDiffHtmlLine (fp : String) (h : String) : Prop :=
  h ∈ ["<div class=\"diff-container\">",
       "<div class=\"diff-content\">",
       "<div class=\"diff-line diff-removed\">",
       "<div class=\"diff-line diff-added\">",
       "<div class=\"diff-line diff-context\">",
       "<span class=\"diff-marker\">-</span>",
       "<span class=\"diff-marker\">+</span>",
       "<span class=\"diff-marker\"> </span>",
       "</div>"]
  ∨ h = "<div class=\"diff-header\">📝 <strong>File:</strong> " ++ fp ++ "</div>"
  ∨ (∃ n : Nat, h = "<span class=\"diff-line-number\">" ++ toString n ++ "</span>")
  ∨ (∃ n1 n2 n3 n4, h = "<div class=\"diff-hunk-header\">"
      ++ stripWS ("@@ -" ++ formatRangeUnified n1 n2 ++ " +"
          ++ formatRangeUnified n3 n4 ++ " @@") ++ "</div>")
  ∨ (∃ c, h = "<span class=\"diff-content\">" ++ escapeHtml c ++ "</span>")

/-! ## jsonl_parser.py: `_find_state_key` (Heuristic Schema Discovery)

The opaque SQLite `ItemTable` is modelled as an ordered list of rows; a
row carries the key, the stored value's length (`LENGTH(value)`, used by
the fallback's `ORDER BY`) and the value's `json.loads` result (`none`
when parsing raises) — `sqlite3` and `json.loads` are external libraries,
and the discovery logic observes the value only through these two. -/

/-- One row of `ItemTable`. -/
structure TableRow where
  key : String
  rawLen : Nat
  parsed : Option JValue
deriving Repr

/-- The cores of the `LIKE` patterns (each is `'%core%'` in the source:
`'%prompt%', '%prompts%', '%ai%', '%aiService.%', '%chat%', '%chat.%',
'%chatHistory%', '%messages%', '%message%', '%history%', '%conversation%',
'%threads%', '%sessions%', '%kiro%'`). -/
def likePatterns : List String :=
  ["prompt", "prompts", "ai", "aiService.", "chat", "chat.", "chatHistory",
   "messages", "message", "history", "conversation", "threads", "sessions",
   "kiro"]

/-- SQLite `key LIKE '%core%'`: case-insensitive substring containment
(ASCII). -/
def likeMatch (key core : String) : Bool :=
  strContains (pyLower key) (pyLower core)

/-- The blacklist of known-irrelevant key prefixes. -/
def blacklist : List String :=
  ["memento/", "workbench.", "terminal", "scm.", "debug.", "vscode.",
   "output.", "workbench.panel.", "workbench.view.", "workbench.activity",
   "workbench.explorer", "workbench.editor", "workbench.sideBar",
   "workbench.panelpart", "workbench.auxiliary", "workbench.zenMode",
   "workbench.search."]

/-- `any(k.startswith(b) for b in blacklist)`. -/
def blacklisted (k : String) : Bool :=
  blacklist.any (fun b => startsWithStr b k)

/-- Order-preserving first-occurrence dedup (`dict.fromkeys`). -/
def dedupFirst (l : List String) : List String :=
  l.foldl (fun acc x => if acc.contains x then acc else acc ++ [x]) []

/-- Candidate key enumeration: each pattern's `SELECT key ... LIKE ? LIMIT
100` in table order, concatenated, deduplicated, blacklist applied. -/
def candidateKeys (tbl : List TableRow) : List String :=
  (dedupFirst (likePatterns.foldl
    (fun acc pat =>
      acc ++ ((tbl.filter (fun r => likeMatch r.key pat)).map (·.key)).take 100)
    [])).filter (fun k => !blacklisted k)

/-- `SELECT value FROM ItemTable WHERE key = ?` with `fetchone()`. -/
def tableLookup (tbl : List TableRow) (k : String) : Option TableRow :=
  tbl.find? (fun r => r.key == k)

/-- The free-text field names used by the scoring pass. -/
def textKeys : List String :=
  ["text", "content", "prompt", "message", "inputText", "outputText",
   "body", "textContent"]

/-- The extended field-name list used by the fallback scan (adds `role` and
`type`). -/
def fallbackKeys : List String :=
  ["text", "content", "prompt", "message", "role", "type", "inputText",
   "outputText", "body", "textContent"]

/-- `any(k in x for k in keys)` on a record: the first element is a dict
containing at least one of the field names (key presence, not truthiness). -/
def textBearing (keys : List String) : JValue → Bool
  | .obj fs => keys.any (fun k => (JValue.get? fs k).isSome)
  | _ => false

/-- The chained `data.get('prompts') or data.get('messages') or ... or []`:
the first truthy container-field value, else the empty list. -/
def orChain (fs : List (String × JValue)) : List String → JValue
  | [] => .arr []
  | f :: rest =>
    let v := (JValue.get? fs f).getD .null
    if v.truthy then v else orChain fs rest

/-- The container-field names tried by the `or`-chain. -/
def containerFields : List String :=
  ["prompts", "messages", "items", "history", "chatHistory", "threads",
   "sessions"]

mutual

/-- `_extract_items_any`: the best (longest) length over all lists in the
object graph whose first element is a text-bearing record; every list's
items and every dict's values are visited, and the running `best_len` is the
maximum over the qualifying lists. -/
def eiaValue (keys : List String) : JValue → Nat
  | .arr xs =>
    Nat.max
      (if (match xs with
           | y :: _ => textBearing keys y
           | [] => false) then xs.length else 0)
      (eiaList keys xs)
  | .obj fs => eiaFields keys fs
  | _ => 0

def eiaList (keys : List String) : List JValue → Nat
  | [] => 0
  | x :: xs => Nat.max (eiaValue keys x) (eiaList keys xs)

def eiaFields (keys : List String) : List (String × JValue) → Nat
  | [] => 0
  | e :: es => Nat.max (eiaValue keys e.2) (eiaFields keys es)

end

mutual

/-- `_extract_items_any2` (fallback deep search): is there a list, reachable
through lists-with-record-heads and dict values, whose first element is a
record bearing one of the field names?  A list whose head is not a record is
not descended (the condition guards the recursion too). -/
def eia2Value (keys : List String) : JValue → Bool
  | .arr (y :: ys) =>
    (match y with
     | .obj _ => textBearing keys y || eia2List keys (y :: ys)
     | _ => false)
  | .arr [] => false
  | .obj fs => eia2Fields keys fs
  | _ => false

def eia2List (keys : List String) : List JValue → Bool
  | [] => false
  | x :: xs => eia2Value keys x || eia2List keys xs

def eia2Fields (keys : List String) : List (String × JValue) → Bool
  | [] => false
  | e :: es => eia2Value keys e.2 || eia2Fields keys es

end

/-- The score of one candidate's parsed value: a list scores its length
plus 1000 when its first element is a text-bearing record; a dict scores
through the container-field chain when that yields a list, else through the
deep search (`best_len + 1000` when non-zero); anything else scores 0. -/
def scoreValue (data : JValue) : Nat :=
  match data with
  | .arr xs =>
    xs.length + (if (match xs with
                     | y :: _ => textBearing textKeys y
                     | [] => false) then 1000 else 0)
  | .obj fs =>
    match orChain fs containerFields with
    | .arr ys =>
      ys.length + (if (match ys with
                       | y :: _ => textBearing textKeys y
                       | [] => false) then 1000 else 0)
    | _ =>
      let bl := eiaValue textKeys data
      if bl ≠ 0 then bl + 1000 else 0
  | _ => 0

/-- Candidates that received a score: rows that exist and whose value
parses as JSON (a missing row or a `json.loads` failure is `continue`d). -/
def scoredCandidates (tbl : List TableRow) : List (String × Nat) :=
  (candidateKeys tbl).filterMap (fun k =>
    match tableLookup tbl k with
    | none => none
    | some r =>
      match r.parsed with
      | none => none
      | some data => some (k, scoreValue data))

/-- The selection fold: `best_score` starts at −1, so the FIRST scored
candidate (score ≥ 0 > −1) always becomes the best, and a later candidate
replaces it only with `score > best_score`. -/
def pickBest (cs : List (String × Nat)) : Option (String × Nat) :=
  cs.foldl
    (fun best c =>
      match best with
      | none => some c
      | some b => if c.2 > b.2 then some c else best)
    none

/-- Stable insertion for the descending-by-length sort (`ORDER BY
LENGTH(value) DESC`, modelled as a stable sort). -/
def insertDesc (r : TableRow) : List TableRow → List TableRow
  | [] => [r]
  | x :: xs => if x.rawLen > r.rawLen then x :: insertDesc r xs else r :: x :: xs

/-- Stable sort of the table rows by descending value length. -/
def sortByLenDesc : List TableRow → List TableRow
  | [] => []
  | x :: xs => insertDesc x (sortByLenDesc xs)

/-- Is this parsed value a fallback hit?  A top-level list is a hit exactly
when non-empty with a text-bearing record head (no deep search for lists);
a dict is a hit when the container-field chain yields such a list, else when
the `_extract_items_any2` deep search succeeds. -/
def fallbackHit (data : JValue) : Bool :=
  match data with
  | .arr (y :: _) => textBearing fallbackKeys y
  | .arr [] => false
  | .obj fs =>
    match orChain fs containerFields with
    | .arr (y :: _) =>
      (match y with
       | .obj _ => textBearing fallbackKeys y
       | _ => eia2Value fallbackKeys data)
    | _ => eia2Value fallbackKeys data
  | _ => false

/-- The last-resort scan: the 50 largest-by-length rows in order, blacklist
still applied, first hit wins. -/
def fallbackScan (tbl : List TableRow) : Option String :=
  ((sortByLenDesc tbl).take 50).findSome? (fun r =>
    if blacklisted r.key then none
    else
      match r.parsed with
      | none => none
      | some data => if fallbackHit data then some r.key else none)

/-- `JSONLParser._find_state_key(cur)`.  `if best_key: return best_key` is a
truthiness test, so an empty-string best key would fall through to the
fallback and be returned by the final `return best_key` only if the fallback
finds nothing (an empty key matches no pattern, so that branch is
unreachable in practice but modelled faithfully). -/
def findStateKey (tbl : List TableRow) : Option String :=
  match pickBest (scoredCandidates tbl) with
  | some b =>
    if !b.1.isEmpty then some b.1
    else
      match fallbackScan tbl with
      | some k => some k
      | none => some b.1
  | none => fallbackScan tbl

/-- Every ampersand in the character list starts one of the five HTML
entities emitted by `_escape_html`. -/
def ampEntityOk : List Char → Prop
  | [] => True
  | c :: rest =>
    (c = '&' → ("amp;".data.isPrefixOf rest ∨ "lt;".data.isPrefixOf rest
      ∨ "gt;".data.isPrefixOf rest ∨ "quot;".data.isPrefixOf rest
      ∨ "#x27;".data.isPrefixOf rest)) ∧ ampEntityOk rest

/-- In the self-comparison `SequenceMatcher(None, l, l)`: index `t` is
available when it survives into `b2j` (its element was not removed by the
autojunk popularity heuristic). -/
def avail (l : List String) (t : Nat) : Prop :=
  t ∈ b2j l (l.getD t "")

instance (l : List String) (t : Nat) : Decidable (avail l t) := by
  unfold avail
  infer_instance

/-- Length of the maximal run of available indices ending at `t`. -/
def npr (l : List String) : Nat → Nat
  | 0 => if avail l 0 then 1 else 0
  | t + 1 => if avail l (t + 1) then npr l t + 1 else 0

/-- `npr` at the previous index (0 at the start). -/
def nprPrev (l : List String) : Nat → Nat
  | 0 => 0
  | t + 1 => npr l t

/-- Exit invariant of one row `i` of the self-comparison dynamic program:
the best block is diagonal and fits in rows `0..i`, it dominates every run
ending at an index `≤ i`, and the new `j2len` is bounded by the runs and
records the run ending at `i` exactly. -/
def rowP (l : List String) (i : Nat)
    (res : (Nat × Nat × Nat) × (Nat → Nat)) : Prop :=
  res.1.1 = res.1.2.1 ∧ res.1.2.1 + res.1.2.2 ≤ i + 1 ∧
  (∀ t, t ≤ i → npr l t ≤ res.1.2.2) ∧
  (∀ j, res.2 j ≤ npr l j) ∧ (∀ j, res.2 j ≤ npr l i) ∧ res.2 i = npr l i

/-- What the dynamic-programming phase guarantees on self-comparison: a
diagonal best block lying inside `0..l.length`. -/
def dpP (l : List String) (best : Nat × Nat × Nat) : Prop :=
  best.1 = best.2.1 ∧ best.2.1 + best.2.2 ≤ l.length ∧
  ∀ t, t < l.length → npr l t ≤ best.2.2

/-! ## END OF DEFINITIONS (theorems below) -/

theorem claudeLoop_eq_filter_parseAll (lines : List (Option JValue))
    (idx : Nat) (s t : Option String) :
    claudeLoop lines idx s t =
      (claudeParseAll lines idx).map
        (fun ms => ms.filter (fun m => shouldInclude m s t)) := by
  induction lines generalizing idx with
  | nil => rfl
  | cons l rest ih =>
    cases l with
    | none =>
      simp only [claudeLoop, claudeParseAll]
      exact ih (idx + 1)
    | some j =>
      simp only [claudeLoop, claudeParseAll]
      cases hp : parseMsgClaude j idx with
      | error e => simp [hp, Except.map, Except.bind, bind]
      | ok m =>
        rw [ih (idx + 1)]
        cases hall : claudeParseAll rest (idx + 1) with
        | error e =>
          simp [hp, hall, Except.map, Except.bind, bind]
        | ok ms =>
          simp only [hp, hall, Except.map, Except.bind, bind, pure,
            Except.pure, List.filter_cons]
          by_cases hinc : shouldInclude m s t
          · simp [hinc]
          · simp [hinc]

theorem linesOk_claudeLoop (lines : List (Option JValue)) (idx : Nat)
    (h : linesOk lines idx = true) :
    ∃ msgs, claudeLoop lines idx none none = .ok msgs
      ∧ msgs.length = (lines.filterMap id).length := by
  induction lines generalizing idx with
  | nil => exact ⟨[], rfl, rfl⟩
  | cons l rest ih =>
    cases l with
    | none =>
      simp only [linesOk] at h
      obtain ⟨msgs, h1, h2⟩ := ih (idx + 1) h
      exact ⟨msgs, h1, by simpa using h2⟩
    | some j =>
      simp only [linesOk, Bool.and_eq_true] at h
      obtain ⟨msgs, h1, h2⟩ := ih (idx + 1) h.2
      cases hp : parseMsgClaude j idx with
      | error e => rw [hp] at h; simp [Except.isOk, Except.toBool] at h
      | ok m =>
        refine ⟨m :: msgs, ?_, ?_⟩
        · simp only [claudeLoop, hp, h1, Except.bind, bind]
          rfl
        · simpa using h2

/-- C3: for any page/page-size/filters, a (project, session) that does not
resolve to an existing session file makes the claude `get_conversation`
return — without raising — the empty-result dict `{"messages": [], "total":
0, "page": page, "per_page": per_page}`, whose `total_pages` key is ABSENT
(`total_pages := none`), contradicting the claimed/declared shape
(`ConversationResponse` in main.py requires `total_pages: int`). -/
theorem C3_not_found_result_shape :
    (∀ (page perPage : Nat) (search messageType : Option String),
      getConversationClaude none page perPage search messageType =
        .ok { messages := [], total := 0, page := page, per_page := perPage,
              total_pages := none })
    ∧ getConversationClaude none 1 50 none none =
        .ok { messages := [], total := 0, page := 1, per_page := 50,
              total_pages := none } :=
  ⟨fun _ _ _ _ => rfl, rfl⟩

set_option maxRecDepth 100000 in
/-- C5: search/role filtering is applied before pagination — on a successful
parse the returned page is the slice `filtered[(page-1)*per_page :
(page-1)*per_page + per_page]` of the filtered message list, `total` counts
the filtered list, and `total_pages = (total + per_page - 1) // per_page`,
which is exactly `ceil(total / per_page)` (the least `k` with `total ≤
per_page * k`); concretely, 125 messages with `page=3`, `per_page=50` yield
the 25 messages at filtered positions 101–125 (line numbers 101–125) and
`total_pages = 3`. -/
theorem C5_filter_then_paginate :
    (∀ (lines : List (Option JValue)) (page perPage : Nat)
        (s t : Option String) (msgs : List Msg), 1 ≤ perPage →
      claudeParseAll lines 1 = .ok msgs →
      getConversationClaude (some lines) page perPage s t =
        .ok { messages :=
                (((msgs.filter (fun m => shouldInclude m s t)).take
                  ((page - 1) * perPage + perPage)).drop ((page - 1) * perPage)),
              total := (msgs.filter (fun m => shouldInclude m s t)).length,
              page := page, per_page := perPage,
              total_pages := some
                (((msgs.filter (fun m => shouldInclude m s t)).length
                  + perPage - 1) / perPage) })
    ∧ (∀ (total perPage : Nat), 1 ≤ perPage →
        total ≤ perPage * ((total + perPage - 1) / perPage)
        ∧ (∀ k, total ≤ perPage * k → (total + perPage - 1) / perPage ≤ k))
    ∧ getConversationClaude (some c5File) 3 50 none none =
        .ok { messages := ((List.range 125).drop 100).map c5Msg,
              total := 125, page := 3, per_page := 50,
              total_pages := some 3 } := by
  refine ⟨?_, ?_, ?_⟩
  · intro lines page perPage s t msgs hpp hparse
    simp only [getConversationClaude, claudeLoop_eq_filter_parseAll, hparse,
      Except.map, Except.bind, bind]
    rw [if_neg (by omega)]
  · intro total perPage hpp
    constructor
    · by_cases h0 : total = 0
      · simp [h0]
      · have h1 : (total + perPage - 1) / perPage <
            (total + perPage - 1) / perPage + 1 := Nat.lt_succ_self _
        rw [Nat.div_lt_iff_lt_mul (by omega)] at h1
        have h2 : ((total + perPage - 1) / perPage + 1) * perPage =
            (total + perPage - 1) / perPage * perPage + perPage :=
          Nat.succ_mul _ _
        rw [h2] at h1
        have := Nat.mul_comm perPage ((total + perPage - 1) / perPage)
        omega
    · intro k hk
      by_contra hlt
      push_neg at hlt
      have : k + 1 ≤ (total + perPage - 1) / perPage := hlt
      rw [Nat.le_div_iff_mul_le (by omega)] at this
      have h2 : (k + 1) * perPage = k * perPage + perPage := Nat.succ_mul _ _
      have h3 := Nat.mul_comm perPage k
      omega
  · rfl

set_option maxRecDepth 100000 in
/-- C5 (witness): the universal part of `C5_filter_then_paginate` applied to
the concrete 125-message file with `page=3`, `per_page=50`. -/
theorem C5_witness :
    getConversationClaude (some c5File) 3 50 none none =
      .ok { messages :=
              ((((List.range 125).map c5Msg).filter
                (fun m => shouldInclude m none none)).take (2 * 50 + 50)).drop
                (2 * 50),
            total := (((List.range 125).map c5Msg).filter
              (fun m => shouldInclude m none none)).length,
            page := 3, per_page := 50,
            total_pages := some
              (((((List.range 125).map c5Msg).filter
                (fun m => shouldInclude m none none)).length + 50 - 1) / 50) } :=
  C5_filter_then_paginate.1 c5File 3 50 none none
    ((List.range 125).map c5Msg) (by norm_num) (by rfl)

/-- C9 (counterexample): a session file whose first line is the VALID json
`[1]` and whose second line is malformed has N = 1 valid JSON lines and one
malformed line, yet the parse raises (AttributeError: a non-dict record hits
`data.get`, and only `json.JSONDecodeError` is caught) instead of yielding
one message. -/
theorem C9_counterexample :
    getConversationClaude (some [some (.arr [.num 1]), none]) 1 50 none none
      = .error "AttributeError: get on non-dict line" := rfl

/-- C9 (amended): a session file whose JSON-parsable lines are all records
accepted by `_parse_message` yields — without raising — exactly one message
per parsable line: malformed (non-JSON) lines are skipped and not counted.
(A line of valid JSON that is not an accepted record, e.g. a top-level
array, instead raises, which the counterexample exhibits.) -/
theorem C9_malformed_skipped :
    ∀ (lines : List (Option JValue)) (page perPage : Nat), 1 ≤ perPage →
      linesOk lines 1 = true →
      ∃ r : ConvResult,
        getConversationClaude (some lines) page perPage none none = .ok r
        ∧ r.total = (lines.filterMap id).length := by
  intro lines page perPage hpp hok
  obtain ⟨msgs, h1, h2⟩ := linesOk_claudeLoop lines 1 hok
  refine ⟨⟨(msgs.take ((page - 1) * perPage + perPage)).drop
      ((page - 1) * perPage), msgs.length, page, perPage,
      some ((msgs.length + perPage - 1) / perPage)⟩, ?_, ?_⟩
  · simp only [getConversationClaude, h1, Except.bind, bind]
    rw [if_neg (by omega)]
  · simpa using h2

/-- C9 (witness): the amended statement applied to a concrete file of two
valid user-message lines surrounding one malformed line: 2 messages, ok. -/
theorem C9_witness :
    ∃ r : ConvResult, getConversationClaude
        (some [some (JValue.obj [("type", .str "user"),
                           ("message", .obj [("content", .str "a")])]),
               none,
               some (JValue.obj [("type", .str "user"),
                           ("message", .obj [("content", .str "b")])])])
        1 50 none none = Except.ok r
      ∧ r.total = (([some (JValue.obj [("type", .str "user"),
                                ("message", .obj [("content", .str "a")])]),
                    none,
                    some (JValue.obj [("type", .str "user"),
                                ("message", .obj [("content", .str "b")])])] :
          List (Option JValue)).filterMap id).length :=
  C9_malformed_skipped _ 1 50 (by norm_num) (by rfl)

theorem get?_ne_nil {ps : List (String × JValue)} {k : String} {v : JValue}
    (h : JValue.get? ps k = some v) : ps.isEmpty = false := by
  cases ps with
  | nil => simp [JValue.get?] at h
  | cons a t => rfl

/-- C10: an `Edit` tool_use item is rendered through the Diff Renderer
exactly when both `old_string` and `new_string` are non-empty strings;
when either is the empty string (a file-creation or deletion edit) the
truthiness test fails and the item falls back to the generic labeled
parameter dump, with no diff. -/
theorem C10_edit_requires_nonempty :
    (∀ (ps : List (String × JValue)) (o n : String),
      JValue.get? ps "old_string" = some (.str o) →
      JValue.get? ps "new_string" = some (.str n) →
      o ≠ "" → n ≠ "" →
      parseContentItem (.obj [("type", .str "tool_use"),
          ("name", .str "Edit"), ("input", .obj ps)]) =
        .ok ["✏️ **Edit Tool: "
          ++ pyStr (JValue.getD ps "file_path" (.str "unknown_file"))
          ++ "**\n" ++ generateDiffHtml o n
            (pyStr (JValue.getD ps "file_path" (.str "unknown_file")))])
    ∧ (∀ (ps : List (String × JValue)),
      JValue.get? ps "old_string" = some (.str "") →
      parseContentItem (.obj [("type", .str "tool_use"),
          ("name", .str "Edit"), ("input", .obj ps)]) =
        .ok ["🔧 **Tool Used: Edit**\n"
          ++ String.intercalate "\n" (ps.map (fun e =>
              match e.2 with
              | .str s =>
                if s.length > 100 then
                  "  **" ++ e.1 ++ "**: " ++ s.take 100 ++ "..."
                else "  **" ++ e.1 ++ "**: " ++ s
              | v => "  **" ++ e.1 ++ "**: " ++ pyStr v))])
    ∧ (∀ (ps : List (String × JValue)) (o : String),
      JValue.get? ps "old_string" = some (.str o) →
      JValue.get? ps "new_string" = some (.str "") →
      parseContentItem (.obj [("type", .str "tool_use"),
          ("name", .str "Edit"), ("input", .obj ps)]) =
        .ok ["🔧 **Tool Used: Edit**\n"
          ++ String.intercalate "\n" (ps.map (fun e =>
              match e.2 with
              | .str s =>
                if s.length > 100 then
                  "  **" ++ e.1 ++ "**: " ++ s.take 100 ++ "..."
                else "  **" ++ e.1 ++ "**: " ++ s
              | v => "  **" ++ e.1 ++ "**: " ++ pyStr v))]) := by
  refine ⟨?_, ?_, ?_⟩
  · intro ps o n ho hn hone hnne
    have hoemp : o.isEmpty = false := by
      cases ho2 : o.isEmpty
      · rfl
      · exact absurd ((String.isEmpty_iff o).mp ho2) hone
    have hnemp : n.isEmpty = false := by
      cases hn2 : n.isEmpty
      · rfl
      · exact absurd ((String.isEmpty_iff n).mp hn2) hnne
    simp only [JValue.get?] at ho hn
    simp [parseContentItem, JValue.get?, JValue.getD, jIsStr, ho, hn,
      JValue.truthy, hoemp, hnemp]
  · intro ps ho
    have hne := get?_ne_nil ho
    simp only [JValue.get?] at ho
    simp [parseContentItem, JValue.get?, JValue.getD, jIsStr, ho,
      JValue.truthy, hne, pyStr, show "".isEmpty = true from rfl]
  · intro ps o ho hn
    have hne := get?_ne_nil hn
    simp only [JValue.get?] at ho hn
    simp [parseContentItem, JValue.get?, JValue.getD, jIsStr, ho, hn,
      JValue.truthy, hne, pyStr, show "".isEmpty = true from rfl]

/-- C10 (witness): the dichotomy at concrete parameter dicts — both strings
non-empty give the diff rendering, an empty `old_string` (file creation)
gives the generic dump. -/
theorem C10_witness :
    (parseContentItem (.obj [("type", .str "tool_use"),
        ("name", .str "Edit"),
        ("input", .obj [("file_path", .str "f.py"),
          ("old_string", .str "a\n"), ("new_string", .str "b\n")])]) =
      .ok ["✏️ **Edit Tool: "
        ++ pyStr (JValue.getD [("file_path", JValue.str "f.py"),
            ("old_string", JValue.str "a\n"), ("new_string", JValue.str "b\n")]
            "file_path" (.str "unknown_file"))
        ++ "**\n" ++ generateDiffHtml "a\n" "b\n"
          (pyStr (JValue.getD [("file_path", JValue.str "f.py"),
            ("old_string", JValue.str "a\n"), ("new_string", JValue.str "b\n")]
            "file_path" (.str "unknown_file")))])
    ∧ (parseContentItem (.obj [("type", .str "tool_use"),
        ("name", .str "Edit"),
        ("input", .obj [("old_string", .str ""), ("new_string", .str "x")])]) =
      .ok ["🔧 **Tool Used: Edit**\n"
        ++ String.intercalate "\n"
          ([("old_string", JValue.str ""), ("new_string", JValue.str "x")].map
            (fun e =>
              match e.2 with
              | .str s =>
                if s.length > 100 then
                  "  **" ++ e.1 ++ "**: " ++ s.take 100 ++ "..."
                else "  **" ++ e.1 ++ "**: " ++ s
              | v => "  **" ++ e.1 ++ "**: " ++ pyStr v))]) :=
  ⟨C10_edit_requires_nonempty.1 _ "a\n" "b\n" rfl rfl (by simp) (by simp),
   C10_edit_requires_nonempty.2.1 _ rfl⟩

theorem find?_filter_self {V : Type} (l : List (String × V)) (k : String) :
    (l.filter (fun x => x.1 != k)).find? (fun x => x.1 == k) = none := by
  induction l with
  | nil => rfl
  | cons a t ih =>
    rw [List.filter_cons]
    by_cases hak : a.1 = k
    · rw [if_neg (by simp [hak])]
      exact ih
    · rw [if_pos (by simp [hak])]
      have h2 : (a.1 == k) = false := by simp [hak]
      simp only [List.find?_cons, h2]
      exact ih

theorem find?_filter_ne {V : Type} (l : List (String × V)) (k k' : String)
    (hne : k' ≠ k) :
    (l.filter (fun x => x.1 != k)).find? (fun x => x.1 == k') =
      l.find? (fun x => x.1 == k') := by
  induction l with
  | nil => rfl
  | cons a t ih =>
    rw [List.filter_cons]
    by_cases hak : a.1 = k
    · have h2 : (a.1 == k') = false := by
        simp only [beq_eq_false_iff_ne, ne_eq, hak]
        exact fun e => hne e.symm
      rw [if_neg (by simp [hak])]
      simp only [List.find?_cons, h2]
      exact ih
    · rw [if_pos (by simp [hak])]
      by_cases hak' : a.1 = k'
      · have h3 : (a.1 == k') = true := by simp [hak']
        simp only [List.find?_cons, h3]
      · have h3 : (a.1 == k') = false := by simp [hak']
        simp only [List.find?_cons, h3]
        exact ih

theorem filter_eq_self_of_find?_none {V : Type} (l : List (String × V))
    (k : String) (h : l.find? (fun x => x.1 == k) = none) :
    l.filter (fun x => x.1 != k) = l := by
  rw [List.find?_eq_none] at h
  rw [List.filter_eq_self]
  intro x hx
  have := h x hx
  simpa using this

theorem length_filter_lt_of_find?_some {V : Type} (l : List (String × V))
    (k : String) (e : String × V)
    (h : l.find? (fun x => x.1 == k) = some e) :
    (l.filter (fun x => x.1 != k)).length < l.length := by
  induction l with
  | nil => simp at h
  | cons a t ih =>
    rw [List.filter_cons]
    by_cases hak : a.1 = k
    · rw [if_neg (by simp [hak])]
      have := List.length_filter_le (fun x => x.1 != k) t
      simp only [List.length_cons]
      omega
    · rw [if_pos (by simp [hak])]
      have h2 : (a.1 == k) = false := by simp [hak]
      have hfind : t.find? (fun x => x.1 == k) = some e := by
        simpa only [List.find?_cons, h2] using h
      simp only [List.length_cons]
      exact Nat.succ_lt_succ (ih hfind)

theorem length_filter_of_nodup {V : Type} (l : List (String × V)) (k : String)
    (e : String × V) (hnd : (l.map (·.1)).Nodup)
    (h : l.find? (fun x => x.1 == k) = some e) :
    (l.filter (fun x => x.1 != k)).length + 1 = l.length := by
  induction l with
  | nil => simp at h
  | cons a t ih =>
    simp only [List.map_cons, List.nodup_cons] at hnd
    rw [List.filter_cons]
    by_cases hak : a.1 = k
    · have hfilter : t.filter (fun x => x.1 != k) = t := by
        rw [List.filter_eq_self]
        intro x hx
        have hxk : x.1 ≠ k := by
          intro hxk
          apply hnd.1
          rw [hak, ← hxk]
          exact List.mem_map_of_mem (·.1) hx
        simpa using hxk
      rw [if_neg (by simp [hak]), hfilter]
      simp
    · have h2 : (a.1 == k) = false := by simp [hak]
      have hfind : t.find? (fun x => x.1 == k) = some e := by
        simpa only [List.find?_cons, h2] using h
      rw [if_pos (by simp [hak])]
      simp only [List.length_cons]
      have := ih hnd.2 hfind
      omega


/-- C1 (counterexample): after `set(k, v, ttl=0)` at time 0 with default TTL
300, an immediate `get(k)` (and even a `get` one second later) returns the
value, not absent — `ttl or self.default_ttl` treats `ttl=0` as unset, so the
entry is not already expired, contradicting the claim. -/
theorem C1_counterexample :
    ((AIView.ttlGet
        (AIView.ttlSet (⟨[], 100, 300⟩ : AIView.TTLCacheState String)
          "k" "v" (some 0) 0) "k" 0).1 = some "v")
    ∧ ((AIView.ttlGet
        (AIView.ttlSet (⟨[], 100, 300⟩ : AIView.TTLCacheState String)
          "k" "v" (some 0) 0) "k" 1).1 = some "v") :=
  ⟨rfl, rfl⟩

/-- C1 (amended): `set(k, v, ttl=0)` behaves exactly like `set` with the
default TTL (a `ttl` of 0 is treated as unspecified by `ttl or
self.default_ttl`), so an immediate `get(k)` returns the value; in general, a
get of a logically expired TTL entry (strictly past its expiry time) removes
the entry and returns absent, and a get on a present, unexpired entry returns
its value and promotes it to most-recently-used, leaving other keys
untouched. -/
theorem C1_ttl_semantics :
    (∀ (V : Type) (c : AIView.TTLCacheState V) (k : String) (v : V) (now : Int),
        AIView.ttlSet c k v (some 0) now = AIView.ttlSet c k v none now)
    ∧ (∀ (V : Type) (c : AIView.TTLCacheState V) (k : String) (v : V)
          (exp now : Int),
        AIView.ttlLookup c k = some (v, exp) → exp < now →
        (AIView.ttlGet c k now).1 = none
        ∧ AIView.ttlLookup (AIView.ttlGet c k now).2 k = none)
    ∧ (∀ (V : Type) (c : AIView.TTLCacheState V) (k : String) (v : V)
          (exp now : Int),
        AIView.ttlLookup c k = some (v, exp) → ¬ exp < now →
        (AIView.ttlGet c k now).1 = some v
        ∧ ((AIView.ttlGet c k now).2).entries.getLast? = some (k, (v, exp))
        ∧ (∀ k', k' ≠ k →
            AIView.ttlLookup (AIView.ttlGet c k now).2 k' =
              AIView.ttlLookup c k')) := by
  refine ⟨?_, ?_, ?_⟩
  · intro V c k v now
    simp [AIView.ttlSet, AIView.ttlResolve]
  · intro V c k v exp now hl hexp
    obtain ⟨e, he, he2⟩ := Option.map_eq_some'.mp hl
    have hnow : now > exp := hexp
    constructor
    · simp [AIView.ttlGet, he, he2, hnow]
    · simp only [AIView.ttlGet, he, he2]
      rw [if_pos hnow]
      simp [AIView.ttlLookup, find?_filter_self]
  · intro V c k v exp now hl hexp
    obtain ⟨e, he, he2⟩ := Option.map_eq_some'.mp hl
    have hke : e.1 = k := by
      have := List.find?_some he
      simpa using this
    refine ⟨?_, ?_, ?_⟩
    · simp [AIView.ttlGet, he, he2, hexp]
    · simp only [AIView.ttlGet, he, he2]
      rw [if_neg (by simpa using hexp)]
      simp
    · intro k' hk'
      simp only [AIView.ttlGet, he, he2]
      rw [if_neg (by simpa using hexp)]
      simp only [AIView.ttlLookup, List.find?_append, find?_filter_ne _ _ _ hk']
      have hlast : ([(k, (e.2.1, e.2.2))].find? (fun x => x.1 == k')) = none := by
        simp [Ne.symm hk']
      cases hfind : c.entries.find? (fun x => x.1 == k') with
      | none => simp [hfind, he2, Ne.symm hk']
      | some w => simp [hfind, he2]

/-- C1 (witness): instantiates the amended TTL semantics at concrete caches:
a `ttl=0` set equals a default-TTL set; an expired entry (expiry 10, read at
time 20) is dropped and reported absent; an unexpired entry (read at time 5)
is returned and promoted. -/
theorem C1_witness :
    (AIView.ttlSet (⟨[("a", ("x", 10))], 5, 300⟩ : AIView.TTLCacheState String)
        "b" "y" (some 0) 7
      = AIView.ttlSet ⟨[("a", ("x", 10))], 5, 300⟩ "b" "y" none 7)
    ∧ ((AIView.ttlGet (⟨[("a", ("x", 10))], 5, 300⟩ :
          AIView.TTLCacheState String) "a" 20).1 = none)
    ∧ ((AIView.ttlGet (⟨[("a", ("x", 10))], 5, 300⟩ :
          AIView.TTLCacheState String) "a" 5).1 = some "x") :=
  ⟨C1_ttl_semantics.1 String ⟨[("a", ("x", 10))], 5, 300⟩ "b" "y" 7,
   (C1_ttl_semantics.2.1 String ⟨[("a", ("x", 10))], 5, 300⟩ "a" "x" 10 20 rfl
     (by norm_num)).1,
   (C1_ttl_semantics.2.2 String ⟨[("a", ("x", 10))], 5, 300⟩ "a" "x" 10 5 rfl
     (by norm_num)).1⟩

theorem lruStep_maxSize {V : Type} (c : AIView.LRUCacheState V)
    (op : AIView.LRUOp V) : (AIView.lruStep c op).maxSize = c.maxSize := by
  cases op with
  | get k =>
    simp only [AIView.lruStep, AIView.lruGet]
    cases c.entries.find? (fun e => e.1 == k) <;> rfl
  | set k v =>
    simp only [AIView.lruStep, AIView.lruSet]
    split <;> rfl
  | del k => rfl
  | clear => rfl

theorem lruStep_size_le {V : Type} (c : AIView.LRUCacheState V)
    (op : AIView.LRUOp V) (h : c.entries.length ≤ c.maxSize) :
    (AIView.lruStep c op).entries.length ≤ c.maxSize := by
  cases op with
  | get k =>
    simp only [AIView.lruStep, AIView.lruGet]
    cases hf : c.entries.find? (fun e => e.1 == k) with
    | none => exact h
    | some e =>
      simp only [List.length_append, List.length_cons, List.length_nil]
      have := length_filter_lt_of_find?_some c.entries k e hf
      omega
  | set k v =>
    simp only [AIView.lruStep, AIView.lruSet]
    split
    · rename_i h2
      simp only [List.length_drop, List.length_append, List.length_cons,
        List.length_nil] at h2 ⊢
      have hfl : (c.entries.filter (fun x => x.1 != k)).length ≤
          c.entries.length := List.length_filter_le _ _
      omega
    · rename_i h2
      simp only [List.length_append, List.length_cons, List.length_nil,
        Nat.not_lt] at h2 ⊢
      omega
  | del k =>
    simp only [AIView.lruStep, AIView.lruDelete]
    exact le_trans (List.length_filter_le _ _) h
  | clear => simp [AIView.lruStep, AIView.lruClear]

theorem ttlStep_maxSize {V : Type} (c : AIView.TTLCacheState V)
    (op : AIView.TTLOp V) : (AIView.ttlStep c op).maxSize = c.maxSize := by
  cases op with
  | get k now =>
    simp only [AIView.ttlStep, AIView.ttlGet]
    cases c.entries.find? (fun e => e.1 == k) with
    | none => rfl
    | some e => dsimp only; split <;> rfl
  | set k v ttl now =>
    simp only [AIView.ttlStep, AIView.ttlSet]
    split <;> rfl
  | del k => rfl
  | clear => rfl

theorem ttlStep_size_le {V : Type} (c : AIView.TTLCacheState V)
    (op : AIView.TTLOp V) (h : c.entries.length ≤ c.maxSize) :
    (AIView.ttlStep c op).entries.length ≤ c.maxSize := by
  cases op with
  | get k now =>
    simp only [AIView.ttlStep, AIView.ttlGet]
    cases hf : c.entries.find? (fun e => e.1 == k) with
    | none => exact h
    | some e =>
      dsimp only
      split
      · exact le_trans (List.length_filter_le _ _) h
      · simp only [List.length_append, List.length_cons, List.length_nil]
        have := length_filter_lt_of_find?_some c.entries k e hf
        omega
  | set k v ttl now =>
    simp only [AIView.ttlStep, AIView.ttlSet]
    split
    · rename_i h2
      simp only [List.length_drop, List.length_append, List.length_cons,
        List.length_nil] at h2 ⊢
      have hfl : (c.entries.filter (fun x => x.1 != k)).length ≤
          c.entries.length := List.length_filter_le _ _
      omega
    · rename_i h2
      simp only [List.length_append, List.length_cons, List.length_nil,
        Nat.not_lt] at h2 ⊢
      omega
  | del k =>
    simp only [AIView.ttlStep, AIView.ttlDelete]
    exact le_trans (List.length_filter_le _ _) h
  | clear => simp [AIView.ttlStep, AIView.ttlClear]

theorem set_entries_of_lookup_some {V : Type} (c : AIView.LRUCacheState V)
    (k : String) (v v0 : V) (hnd : (c.entries.map (·.1)).Nodup)
    (hle : c.entries.length ≤ c.maxSize)
    (hl : AIView.lruLookup c k = some v0) :
    (AIView.lruSet c k v).entries =
      c.entries.filter (fun x => x.1 != k) ++ [(k, v)] := by
  obtain ⟨e, he, _⟩ := Option.map_eq_some'.mp hl
  have hlen := length_filter_of_nodup c.entries k e hnd he
  simp only [AIView.lruSet]
  rw [if_neg]
  simp only [List.length_append, List.length_cons, List.length_nil]
  omega

theorem ttl_set_entries_of_lookup_some {V : Type}
    (c : AIView.TTLCacheState V) (k : String) (v : V) (ttl : Option Int)
    (now : Int) (e0 : V × Int) (hnd : (c.entries.map (·.1)).Nodup)
    (hle : c.entries.length ≤ c.maxSize)
    (hl : AIView.ttlLookup c k = some e0) :
    (AIView.ttlSet c k v ttl now).entries =
      c.entries.filter (fun x => x.1 != k)
        ++ [(k, (v, now + AIView.ttlResolve c ttl))] := by
  obtain ⟨e, he, _⟩ := Option.map_eq_some'.mp hl
  have hlen := length_filter_of_nodup c.entries k e hnd he
  simp only [AIView.ttlSet]
  rw [if_neg]
  simp only [List.length_append, List.length_cons, List.length_nil]
  omega

/-- C8: for every sequence of get/set/delete/clear operations on either cache
variant, the entry count never exceeds `max_size`; a set of a fresh key into a
full cache drops exactly the head (least-recently-used) entry and appends the
new one; and on either variant a set of an existing key (with well-formed
unique keys) keeps the entry count, puts the key at the most-recently-used
end (for the TTL variant with the newly computed expiry), and leaves every
other key's binding untouched — no entry is evicted. -/
theorem C8_bounded_cache_invariants :
    (∀ (V : Type) (c : AIView.LRUCacheState V) (ops : List (AIView.LRUOp V)),
        c.entries.length ≤ c.maxSize →
        (AIView.lruRun c ops).entries.length ≤ c.maxSize)
    ∧ (∀ (V : Type) (c : AIView.TTLCacheState V) (ops : List (AIView.TTLOp V)),
        c.entries.length ≤ c.maxSize →
        (AIView.ttlRun c ops).entries.length ≤ c.maxSize)
    ∧ (∀ (V : Type) (c : AIView.LRUCacheState V) (k : String) (v : V),
        0 < c.maxSize → c.entries.length = c.maxSize →
        AIView.lruLookup c k = none →
        (AIView.lruSet c k v).entries = c.entries.tail ++ [(k, v)])
    ∧ (∀ (V : Type) (c : AIView.TTLCacheState V) (k : String) (v : V × Int)
          (now : Int) (ttl : Option Int),
        0 < c.maxSize → c.entries.length = c.maxSize →
        AIView.ttlLookup c k = none →
        (AIView.ttlSet c k v.1 ttl now).entries =
          c.entries.tail ++ [(k, (v.1, now + AIView.ttlResolve c ttl))])
    ∧ (∀ (V : Type) (c : AIView.LRUCacheState V) (k : String) (v v0 : V),
        (c.entries.map (·.1)).Nodup → c.entries.length ≤ c.maxSize →
        AIView.lruLookup c k = some v0 →
        (AIView.lruSet c k v).entries.length = c.entries.length
        ∧ (AIView.lruSet c k v).entries.getLast? = some (k, v)
        ∧ (∀ k', k' ≠ k →
            AIView.lruLookup (AIView.lruSet c k v) k' =
              AIView.lruLookup c k'))
    ∧ (∀ (V : Type) (c : AIView.TTLCacheState V) (k : String) (v : V)
          (ttl : Option Int) (now : Int) (e0 : V × Int),
        (c.entries.map (·.1)).Nodup → c.entries.length ≤ c.maxSize →
        AIView.ttlLookup c k = some e0 →
        (AIView.ttlSet c k v ttl now).entries.length = c.entries.length
        ∧ (AIView.ttlSet c k v ttl now).entries.getLast? =
            some (k, (v, now + AIView.ttlResolve c ttl))
        ∧ (∀ k', k' ≠ k →
            AIView.ttlLookup (AIView.ttlSet c k v ttl now) k' =
              AIView.ttlLookup c k')) := by
  refine ⟨?_, ?_, ?_, ?_, ?_, ?_⟩
  · intro V c ops h
    induction ops generalizing c with
    | nil => exact h
    | cons op rest ih =>
      simp only [AIView.lruRun, List.foldl_cons]
      have h1 := lruStep_size_le c op h
      have h2 := lruStep_maxSize c op
      have := ih (AIView.lruStep c op) (h2 ▸ h1)
      rwa [AIView.lruRun, h2] at this
  · intro V c ops h
    induction ops generalizing c with
    | nil => exact h
    | cons op rest ih =>
      simp only [AIView.ttlRun, List.foldl_cons]
      have h1 := ttlStep_size_le c op h
      have h2 := ttlStep_maxSize c op
      have := ih (AIView.ttlStep c op) (h2 ▸ h1)
      rwa [AIView.ttlRun, h2] at this
  · intro V c k v hpos hfull hl
    have hfind : c.entries.find? (fun e => e.1 == k) = none := by
      cases hf : c.entries.find? (fun e => e.1 == k) with
      | none => rfl
      | some e => simp [AIView.lruLookup, hf] at hl
    have hfe := filter_eq_self_of_find?_none c.entries k hfind
    simp only [AIView.lruSet, hfe]
    rw [if_pos]
    · cases hc : c.entries with
      | nil => rw [hc] at hfull; simp at hfull; omega
      | cons a t => simp
    · simp only [List.length_append, List.length_cons, List.length_nil]
      omega
  · intro V c k v now ttl hpos hfull hl
    have hfind : c.entries.find? (fun e => e.1 == k) = none := by
      cases hf : c.entries.find? (fun e => e.1 == k) with
      | none => rfl
      | some e => simp [AIView.ttlLookup, hf] at hl
    have hfe := filter_eq_self_of_find?_none c.entries k hfind
    simp only [AIView.ttlSet, hfe]
    rw [if_pos]
    · cases hc : c.entries with
      | nil => rw [hc] at hfull; simp at hfull; omega
      | cons a t => simp
    · simp only [List.length_append, List.length_cons, List.length_nil]
      omega
  · intro V c k v v0 hnd hle hl
    have hset := set_entries_of_lookup_some c k v v0 hnd hle hl
    obtain ⟨e, he, _⟩ := Option.map_eq_some'.mp hl
    have hlen := length_filter_of_nodup c.entries k e hnd he
    refine ⟨?_, ?_, ?_⟩
    · rw [hset]
      simp only [List.length_append, List.length_cons, List.length_nil]
      omega
    · rw [hset]
      simp
    · intro k' hk'
      simp only [AIView.lruLookup, hset, List.find?_append,
        find?_filter_ne _ _ _ hk']
      have hlast : ([(k, v)].find? (fun x => x.1 == k')) = none := by
        simp [Ne.symm hk']
      cases hfind : c.entries.find? (fun x => x.1 == k') with
      | none => simp [hfind, hlast]
      | some w => simp [hfind]
  · intro V c k v ttl now e0 hnd hle hl
    have hset := ttl_set_entries_of_lookup_some c k v ttl now e0 hnd hle hl
    obtain ⟨e, he, _⟩ := Option.map_eq_some'.mp hl
    have hlen := length_filter_of_nodup c.entries k e hnd he
    refine ⟨?_, ?_, ?_⟩
    · rw [hset]
      simp only [List.length_append, List.length_cons, List.length_nil]
      omega
    · rw [hset]
      simp
    · intro k' hk'
      simp only [AIView.ttlLookup, hset, List.find?_append,
        find?_filter_ne _ _ _ hk']
      have hlast : ([(k, (v, now + AIView.ttlResolve c ttl))].find?
          (fun x => x.1 == k')) = none := by
        simp [Ne.symm hk']
      cases hfind : c.entries.find? (fun x => x.1 == k') with
      | none => simp [hfind, hlast]
      | some w => simp [hfind]

/-- C8 (witness): the invariants at concrete caches: running a concrete op
sequence on a 2-entry cache stays within bound; a set into a full 2-entry LRU
(and TTL) cache evicts the head; a set of the existing key "a" on the LRU
variant keeps it last with the new value, and on the TTL variant a set of the
existing key "a" keeps the entry count at 2, puts "a" last with the new value
and expiry 10 + 50, and preserves the binding of "b". -/
theorem C8_witness :
    ((AIView.lruRun (⟨[("a", 1), ("b", 2)], 2⟩ : AIView.LRUCacheState Nat)
        [.set "c" 3, .get "a", .del "b", .clear]).entries.length ≤ 2)
    ∧ ((AIView.lruSet (⟨[("a", 1), ("b", 2)], 2⟩ : AIView.LRUCacheState Nat)
        "c" 3).entries = [("b", 2), ("c", 3)])
    ∧ ((AIView.lruSet (⟨[("a", 1), ("b", 2)], 2⟩ : AIView.LRUCacheState Nat)
        "a" 9).entries.getLast? = some ("a", 9))
    ∧ ((AIView.ttlSet
        (⟨[("a", (1, 100)), ("b", (2, 100))], 2, 300⟩ :
          AIView.TTLCacheState Nat)
        "a" 9 (some 50) 10).entries.length = 2)
    ∧ ((AIView.ttlSet
        (⟨[("a", (1, 100)), ("b", (2, 100))], 2, 300⟩ :
          AIView.TTLCacheState Nat)
        "a" 9 (some 50) 10).entries.getLast? = some ("a", (9, 60)))
    ∧ (AIView.ttlLookup (AIView.ttlSet
        (⟨[("a", (1, 100)), ("b", (2, 100))], 2, 300⟩ :
          AIView.TTLCacheState Nat)
        "a" 9 (some 50) 10) "b" = some (2, 100)) := by
  refine ⟨?_, ?_, ?_, ?_, ?_, ?_⟩
  · exact C8_bounded_cache_invariants.1 Nat _ _ (by decide)
  · exact C8_bounded_cache_invariants.2.2.1 Nat _ "c" 3 (by decide) rfl rfl
  · exact ((C8_bounded_cache_invariants.2.2.2.2.1 Nat
      ⟨[("a", 1), ("b", 2)], 2⟩ "a" 9 1 (by decide) (by decide) rfl).2).1
  · exact (C8_bounded_cache_invariants.2.2.2.2.2 Nat
      ⟨[("a", (1, 100)), ("b", (2, 100))], 2, 300⟩ "a" 9 (some 50) 10
      (1, 100) (by decide) (by decide) rfl).1
  · exact ((C8_bounded_cache_invariants.2.2.2.2.2 Nat
      ⟨[("a", (1, 100)), ("b", (2, 100))], 2, 300⟩ "a" 9 (some 50) 10
      (1, 100) (by decide) (by decide) rfl).2).1
  · have := ((C8_bounded_cache_invariants.2.2.2.2.2 Nat
      ⟨[("a", (1, 100)), ("b", (2, 100))], 2, 300⟩ "a" 9 (some 50) 10
      (1, 100) (by decide) (by decide) rfl).2).2 "b" (by decide)
    rw [this]
    rfl

theorem foldl_inv_mem {α β : Type} (xs : List β) (step : α → β → α)
    (P : α → Prop) (hstep : ∀ st x, x ∈ xs → P st → P (step st x)) :
    ∀ st, P st → P (xs.foldl step st) := by
  induction xs with
  | nil => intro st h; exact h
  | cons x rest ih =>
    intro st h
    exact ih (fun st y hy => hstep st y (List.mem_cons_of_mem _ hy)) _
      (hstep st x (List.mem_cons_self _ _) h)

theorem pySlice_mem {l : List String} {i j : Nat} {x : String}
    (h : x ∈ pySlice l i j) : x ∈ l :=
  List.mem_of_mem_take (List.mem_of_mem_drop h)

theorem unifiedDiff_line_shape (a b : List String) (ff tf : String) :
    ∀ l ∈ unifiedDiff a b ff tf, diffSourceLineShape a b ff tf l := by
  intro l hl
  simp only [unifiedDiff] at hl
  refine foldl_inv_mem (groupedOpcodes a b) _
    (fun st => ∀ l' ∈ st.2, diffSourceLineShape a b ff tf l') ?_ (false, [])
    (by intro l' hl'; simp at hl') l hl
  intro st group _ hP l' hl'
  dsimp only at hl'
  refine foldl_inv_mem group _
    (fun out => ∀ l'' ∈ out, diffSourceLineShape a b ff tf l'') ?_ _ ?_ l' hl'
  · intro out c _ hout l'' hl''
    split at hl''
    · rcases List.mem_append.mp hl'' with h | h
      · exact hout _ h
      · obtain ⟨x, hx, rfl⟩ := List.mem_map.mp h
        exact Or.inr (Or.inr (Or.inr (Or.inl ⟨x, pySlice_mem hx, Or.inl rfl⟩)))
    · split at hl''
      · rcases List.mem_append.mp hl'' with h | h
        · split at h
          · rcases List.mem_append.mp h with h2 | h2
            · exact hout _ h2
            · obtain ⟨x, hx, rfl⟩ := List.mem_map.mp h2
              exact Or.inr (Or.inr (Or.inr (Or.inl
                ⟨x, pySlice_mem hx, Or.inr rfl⟩)))
          · exact hout _ h
        · obtain ⟨x, hx, rfl⟩ := List.mem_map.mp h
          exact Or.inr (Or.inr (Or.inr (Or.inr ⟨x, pySlice_mem hx, rfl⟩)))
      · split at hl''
        · rcases List.mem_append.mp hl'' with h | h
          · exact hout _ h
          · obtain ⟨x, hx, rfl⟩ := List.mem_map.mp h
            exact Or.inr (Or.inr (Or.inr (Or.inl
              ⟨x, pySlice_mem hx, Or.inr rfl⟩)))
        · exact hout _ hl''
  · intro l'' hl''
    rcases List.mem_append.mp hl'' with h | h
    · split at h
      · rcases List.mem_append.mp h with h2 | h2
        · exact hP _ h2
        · simp only [List.mem_cons, List.not_mem_nil, or_false] at h2
          rcases h2 with rfl | rfl
          · exact Or.inl rfl
          · exact Or.inr (Or.inl rfl)
      · exact hP _ h
    · simp only [List.mem_singleton] at h
      subst h
      exact Or.inr (Or.inr (Or.inl ⟨_, _, _, _, rfl⟩))

theorem diffLineRender_shape (st : Nat × Nat × List String) (line : String) :
    ∀ h ∈ (diffLineRender st line).2.2,
      h ∈ st.2.2
      ∨ (line.data.take 2 = ['@', '@']
          ∧ h = "<div class=\"diff-hunk-header\">" ++ stripWS line ++ "</div>")
      ∨ h ∈ ["<div class=\"diff-line diff-removed\">",
             "<div class=\"diff-line diff-added\">",
             "<div class=\"diff-line diff-context\">",
             "<span class=\"diff-marker\">-</span>",
             "<span class=\"diff-marker\">+</span>",
             "<span class=\"diff-marker\"> </span>",
             "</div>"]
      ∨ (∃ n : Nat, h = "<span class=\"diff-line-number\">" ++ toString n ++ "</span>")
      ∨ (∃ c, h = "<span class=\"diff-content\">" ++ escapeHtml c ++ "</span>") := by
  intro h hmem
  unfold diffLineRender at hmem
  split at hmem
  case _ x heq =>
    dsimp only at hmem
    rcases List.mem_append.mp hmem with hm | hm
    · exact Or.inl hm
    · simp only [List.mem_singleton] at hm
      refine Or.inr (Or.inl ⟨?_, hm⟩)
      rw [heq]
      rfl
  case _ => exact Or.inl hmem
  case _ => exact Or.inl hmem
  case _ rest heq =>
    dsimp only at hmem
    rcases List.mem_append.mp hmem with hm | hm
    · exact Or.inl hm
    · simp only [List.mem_cons, List.not_mem_nil, or_false] at hm
      rcases hm with rfl | rfl | rfl | rfl | rfl
      · exact Or.inr (Or.inr (Or.inl (by simp)))
      · exact Or.inr (Or.inr (Or.inr (Or.inl ⟨_, rfl⟩)))
      · exact Or.inr (Or.inr (Or.inl (by simp)))
      · exact Or.inr (Or.inr (Or.inr (Or.inr ⟨_, rfl⟩)))
      · exact Or.inr (Or.inr (Or.inl (by simp)))
  case _ rest heq =>
    dsimp only at hmem
    rcases List.mem_append.mp hmem with hm | hm
    · exact Or.inl hm
    · simp only [List.mem_cons, List.not_mem_nil, or_false] at hm
      rcases hm with rfl | rfl | rfl | rfl | rfl
      · exact Or.inr (Or.inr (Or.inl (by simp)))
      · exact Or.inr (Or.inr (Or.inr (Or.inl ⟨_, rfl⟩)))
      · exact Or.inr (Or.inr (Or.inl (by simp)))
      · exact Or.inr (Or.inr (Or.inr (Or.inr ⟨_, rfl⟩)))
      · exact Or.inr (Or.inr (Or.inl (by simp)))
  case _ rest heq =>
    dsimp only at hmem
    rcases List.mem_append.mp hmem with hm | hm
    · exact Or.inl hm
    · simp only [List.mem_cons, List.not_mem_nil, or_false] at hm
      rcases hm with rfl | rfl | rfl | rfl | rfl
      · exact Or.inr (Or.inr (Or.inl (by simp)))
      · exact Or.inr (Or.inr (Or.inr (Or.inl ⟨_, rfl⟩)))
      · exact Or.inr (Or.inr (Or.inl (by simp)))
      · exact Or.inr (Or.inr (Or.inr (Or.inr ⟨_, rfl⟩)))
      · exact Or.inr (Or.inr (Or.inl (by simp)))
  case _ => exact Or.inl hmem

theorem escChar_safe (c c' : Char) (h : c' ∈ (escChar c).data) :
    c' ≠ '<' ∧ c' ≠ '>' ∧ c' ≠ '"' ∧ c' ≠ '\'' := by
  unfold escChar at h
  by_cases h1 : c = '&'
  · rw [if_pos h1] at h
    have : "&amp;".data = ['&', 'a', 'm', 'p', ';'] := rfl
    rw [this] at h
    fin_cases h <;> decide
  rw [if_neg h1] at h
  by_cases h2 : c = '<'
  · rw [if_pos h2] at h
    have : "&lt;".data = ['&', 'l', 't', ';'] := rfl
    rw [this] at h
    fin_cases h <;> decide
  rw [if_neg h2] at h
  by_cases h3 : c = '>'
  · rw [if_pos h3] at h
    have : "&gt;".data = ['&', 'g', 't', ';'] := rfl
    rw [this] at h
    fin_cases h <;> decide
  rw [if_neg h3] at h
  by_cases h4 : c = '"'
  · rw [if_pos h4] at h
    have : "&quot;".data = ['&', 'q', 'u', 'o', 't', ';'] := rfl
    rw [this] at h
    fin_cases h <;> decide
  rw [if_neg h4] at h
  by_cases h5 : c = '\''
  · rw [if_pos h5] at h
    have : "&#x27;".data = ['&', '#', 'x', '2', '7', ';'] := rfl
    rw [this] at h
    fin_cases h <;> decide
  rw [if_neg h5] at h
  have : (String.singleton c).data = [c] := rfl
  rw [this] at h
  simp only [List.mem_singleton] at h
  subst h
  exact ⟨h2, h3, h4, h5⟩

theorem escList_safe (l : List Char) (c' : Char) (h : c' ∈ (escList l).data) :
    c' ≠ '<' ∧ c' ≠ '>' ∧ c' ≠ '"' ∧ c' ≠ '\'' := by
  induction l with
  | nil => simp [escList] at h
  | cons c cs ih =>
    simp only [escList, String.data_append, List.mem_append] at h
    rcases h with h | h
    · exact escChar_safe c c' h
    · exact ih h

theorem escList_ampOk (l : List Char) : ampEntityOk (escList l).data := by
  induction l with
  | nil => exact trivial
  | cons c cs ih =>
    show ampEntityOk (escChar c ++ escList cs).data
    rw [String.data_append]
    by_cases h1 : c = '&'
    · rw [show escChar c = "&amp;" from by simp [escChar, h1]]
      exact ⟨fun _ => Or.inl (by simp [List.isPrefixOf]), fun h => absurd h (by decide),
        fun h => absurd h (by decide), fun h => absurd h (by decide),
        fun h => absurd h (by decide), ih⟩
    by_cases h2 : c = '<'
    · rw [show escChar c = "&lt;" from by simp [escChar, h1, h2]]
      exact ⟨fun _ => Or.inr (Or.inl (by simp [List.isPrefixOf])), fun h => absurd h (by decide),
        fun h => absurd h (by decide), fun h => absurd h (by decide), ih⟩
    by_cases h3 : c = '>'
    · rw [show escChar c = "&gt;" from by simp [escChar, h1, h2, h3]]
      exact ⟨fun _ => Or.inr (Or.inr (Or.inl (by simp [List.isPrefixOf]))),
        fun h => absurd h (by decide), fun h => absurd h (by decide),
        fun h => absurd h (by decide), ih⟩
    by_cases h4 : c = '"'
    · rw [show escChar c = "&quot;" from by simp [escChar, h1, h2, h3, h4]]
      exact ⟨fun _ => Or.inr (Or.inr (Or.inr (Or.inl (by simp [List.isPrefixOf])))),
        fun h => absurd h (by decide), fun h => absurd h (by decide),
        fun h => absurd h (by decide), fun h => absurd h (by decide),
        fun h => absurd h (by decide), ih⟩
    by_cases h5 : c = '\''
    · rw [show escChar c = "&#x27;" from by simp [escChar, h1, h2, h3, h4, h5]]
      exact ⟨fun _ => Or.inr (Or.inr (Or.inr (Or.inr (by simp [List.isPrefixOf])))),
        fun h => absurd h (by decide), fun h => absurd h (by decide),
        fun h => absurd h (by decide), fun h => absurd h (by decide),
        fun h => absurd h (by decide), ih⟩
    · rw [show escChar c = String.singleton c from by
        simp [escChar, h1, h2, h3, h4, h5]]
      exact ⟨fun hc => absurd hc h1, ih⟩

/-- C4 (counterexample): with old string `"x\n"`, new string `"y\n"` and
file path label `<evil&"bad'>`, the rendered output contains the label's
markup characters verbatim: the file path is interpolated unescaped into the
diff header, so not all text content originating from the inputs is escaped
against markup injection. -/
theorem C4_counterexample :
    strContains (generateDiffHtml "x\n" "y\n" "<evil&\"bad'>")
      "<evil&\"bad'>" = true := by decide

/-- C4 (amended): the old/new string content of every removed, added or
context line is emitted through `_escape_html`, whose output contains no raw
`<`, `>`, `"` or `'` and in which every `&` starts one of the five emitted
entities; every line of the generated markup is either fixed scaffolding, a
number-derived span/hunk header, such an escaped content span — or the diff
header, which carries the file path label UNESCAPED. -/
theorem C4_content_escaped :
    (∀ s : String, ∀ c ∈ (escapeHtml s).data,
        c ≠ '<' ∧ c ≠ '>' ∧ c ≠ '"' ∧ c ≠ '\'')
    ∧ (∀ s : String, ampEntityOk (escapeHtml s).data)
    ∧ (∀ oldString newString fp : String,
        ∀ h ∈ diffHtmlLines oldString newString fp,
        allowedDiffHtmlLine fp h) := by
  refine ⟨?_, ?_, ?_⟩
  · intro s c h
    exact escList_safe s.data c h
  · intro s
    exact escList_ampOk s.data
  · intro o n fp h hmem
    have hbody : ∀ h' ∈ ((unifiedDiff (splitLinesKeepEnds o)
        (splitLinesKeepEnds n) ("a/" ++ fp) ("b/" ++ fp)).foldl
        diffLineRender (0, 0, [])).2.2, allowedDiffHtmlLine fp h' := by
      refine foldl_inv_mem _ _
        (fun st => ∀ h' ∈ st.2.2, allowedDiffHtmlLine fp h') ?_ (0, 0, [])
        (by intro h' hh; simp at hh)
      intro st line hline hP h' hh
      rcases diffLineRender_shape st line h' hh with
        hc | ⟨hat, rfl⟩ | hc | hc | hc
      · exact hP _ hc
      · rcases unifiedDiff_line_shape _ _ _ _ line hline with
          h1 | h1 | ⟨n1, n2, n3, n4, h1⟩ | ⟨x, _, h1 | h1⟩ | ⟨x, _, h1⟩
        · rw [h1] at hat
          rw [show ("--- " ++ ("a/" ++ fp)).data
            = '-' :: '-' :: '-' :: ' ' :: ("a/" ++ fp).data from rfl] at hat
          simp at hat
        · rw [h1] at hat
          rw [show ("+++ " ++ ("b/" ++ fp)).data
            = '+' :: '+' :: '+' :: ' ' :: ("b/" ++ fp).data from rfl] at hat
          simp at hat
        · exact Or.inr (Or.inr (Or.inr (Or.inl ⟨n1, n2, n3, n4, by rw [h1]⟩)))
        · rw [h1] at hat
          rw [show (" " ++ x).data = ' ' :: x.data from rfl] at hat
          cases hx : x.data with
          | nil => rw [hx] at hat; exact absurd hat (by decide)
          | cons y ys =>
            rw [hx] at hat
            simp only [List.take] at hat
            exact absurd hat (by simp)
        · rw [h1] at hat
          rw [show ("-" ++ x).data = '-' :: x.data from rfl] at hat
          cases hx : x.data with
          | nil => rw [hx] at hat; exact absurd hat (by decide)
          | cons y ys =>
            rw [hx] at hat
            simp only [List.take] at hat
            exact absurd hat (by simp)
        · rw [h1] at hat
          rw [show ("+" ++ x).data = '+' :: x.data from rfl] at hat
          cases hx : x.data with
          | nil => rw [hx] at hat; exact absurd hat (by decide)
          | cons y ys =>
            rw [hx] at hat
            simp only [List.take] at hat
            exact absurd hat (by simp)
      · simp only [List.mem_cons, List.not_mem_nil, or_false] at hc
        rcases hc with rfl | rfl | rfl | rfl | rfl | rfl | rfl
          <;> exact Or.inl (by simp [allowedDiffHtmlLine])
      · exact Or.inr (Or.inr (Or.inl hc))
      · exact Or.inr (Or.inr (Or.inr (Or.inr hc)))
    simp only [diffHtmlLines] at hmem
    rcases List.mem_append.mp hmem with hm | hm
    · rcases List.mem_append.mp hm with hm2 | hm2
      · simp only [List.mem_cons, List.not_mem_nil, or_false] at hm2
        rcases hm2 with rfl | rfl | rfl
        · exact Or.inl (by simp)
        · exact Or.inr (Or.inl rfl)
        · exact Or.inl (by simp)
      · exact hbody h hm2
    · simp only [List.mem_cons, List.not_mem_nil, or_false] at hm
      rcases hm with rfl | rfl <;> exact Or.inl (by simp)

/-- C4 (witness): the amended escaping facts at concrete inputs — the
escape of `<a&"b'>` has no raw specials, its ampersands head entities, and a
concrete line of the diff markup for `"x\n"` vs `"y\n"` is of an allowed
shape. -/
theorem C4_witness :
    ('&' ∈ (escapeHtml "<a&\"b'>").data
      → ('&' ≠ '<' ∧ '&' ≠ '>' ∧ '&' ≠ '"' ∧ '&' ≠ '\''))
    ∧ ampEntityOk (escapeHtml "<a&\"b'>").data
    ∧ allowedDiffHtmlLine "f.py" "<div class=\"diff-container\">" :=
  ⟨fun h => C4_content_escaped.1 "<a&\"b'>" '&' h,
   C4_content_escaped.2.1 "<a&\"b'>",
   C4_content_escaped.2.2 "x\n" "y\n" "f.py" "<div class=\"diff-container\">"
     (List.mem_cons_self _ _)⟩

theorem pickBest_go (cs : List (String × Nat)) (b : String × Nat) :
    ∃ r, cs.foldl
        (fun best c =>
          match best with
          | none => some c
          | some bb => if c.2 > bb.2 then some c else best)
        (some b) = some r
      ∧ ((r = b ∧ ∀ p ∈ cs, p.2 ≤ b.2)
        ∨ (∃ pre post, cs = pre ++ r :: post ∧ b.2 < r.2
            ∧ (∀ p ∈ pre, p.2 < r.2) ∧ (∀ p ∈ post, p.2 ≤ r.2))) := by
  induction cs generalizing b with
  | nil => exact ⟨b, rfl, Or.inl ⟨rfl, by simp⟩⟩
  | cons x rest ih =>
    by_cases hx : x.2 > b.2
    · obtain ⟨r, hr, hcase⟩ := ih x
      refine ⟨r, ?_, ?_⟩
      · show rest.foldl _ (if x.2 > b.2 then some x else some b) = some r
        rw [if_pos hx]
        exact hr
      · rcases hcase with ⟨rfl, hall⟩ | ⟨pre, post, heq, hlt, hpre, hpost⟩
        · exact Or.inr ⟨[], rest, by simp, hx, by simp, hall⟩
        · refine Or.inr ⟨x :: pre, post, by rw [heq]; rfl,
            lt_trans hx hlt, ?_, hpost⟩
          intro p hp
          rcases List.mem_cons.mp hp with rfl | hp2
          · exact hlt
          · exact hpre p hp2
    · obtain ⟨r, hr, hcase⟩ := ih b
      refine ⟨r, ?_, ?_⟩
      · show rest.foldl _ (if x.2 > b.2 then some x else some b) = some r
        rw [if_neg hx]
        exact hr
      · rcases hcase with ⟨rfl, hall⟩ | ⟨pre, post, heq, hlt, hpre, hpost⟩
        · refine Or.inl ⟨rfl, ?_⟩
          intro p hp
          rcases List.mem_cons.mp hp with rfl | hp2
          · omega
          · exact hall p hp2
        · refine Or.inr ⟨x :: pre, post, by rw [heq]; rfl, hlt, ?_, hpost⟩
          intro p hp
          rcases List.mem_cons.mp hp with rfl | hp2
          · omega
          · exact hpre p hp2

theorem pickBest_spec (cs : List (String × Nat)) (k : String) (s : Nat)
    (h : pickBest cs = some (k, s)) :
    ∃ pre post, cs = pre ++ (k, s) :: post
      ∧ (∀ p ∈ pre, p.2 < s) ∧ (∀ p ∈ post, p.2 ≤ s) := by
  cases cs with
  | nil => simp [pickBest] at h
  | cons x rest =>
    obtain ⟨r, hr, hcase⟩ := pickBest_go rest x
    have hx : pickBest (x :: rest) = some r := by
      show rest.foldl _ (some x) = some r
      exact hr
    rw [hx] at h
    injection h with h
    subst h
    rcases hcase with ⟨rfl, hall⟩ | ⟨pre, post, heq, hlt, hpre, hpost⟩
    · exact ⟨[], rest, rfl, by simp, hall⟩
    · refine ⟨x :: pre, post, by rw [heq]; rfl, ?_, hpost⟩
      intro p hp
      rcases List.mem_cons.mp hp with rfl | hp2
      · exact hlt
      · exact hpre p hp2

theorem pickBest_none_iff (cs : List (String × Nat)) :
    pickBest cs = none ↔ cs = [] := by
  constructor
  · intro h
    cases cs with
    | nil => rfl
    | cons x rest =>
      obtain ⟨r, hr, _⟩ := pickBest_go rest x
      have hx : pickBest (x :: rest) = some r := by
        show rest.foldl _ (some x) = some r
        exact hr
      rw [hx] at h
      exact absurd h (by simp)
  · rintro rfl
    rfl

/-- C2 (counterexample): in the table `{"my.chat.settings": "{}", "zzzBlob":
"[{\"text\":\"hi\"}]"}` the only candidate ("my.chat.settings", matching
`%chat%`) scores 0 — so no candidate scores above zero — and the last-resort
scan would return "zzzBlob"; yet Discovery returns "my.chat.settings": a
zero-scoring candidate still beats the initial best score of −1, so the
fallback never runs. -/
theorem C2_counterexample :
    scoredCandidates
        [⟨"my.chat.settings", 2, some (.obj [])⟩,
         ⟨"zzzBlob", 15, some (.arr [.obj [("text", .str "hi")]])⟩]
      = [("my.chat.settings", 0)]
    ∧ fallbackScan
        [⟨"my.chat.settings", 2, some (.obj [])⟩,
         ⟨"zzzBlob", 15, some (.arr [.obj [("text", .str "hi")]])⟩]
      = some "zzzBlob"
    ∧ findStateKey
        [⟨"my.chat.settings", 2, some (.obj [])⟩,
         ⟨"zzzBlob", 15, some (.arr [.obj [("text", .str "hi")]])⟩]
      = some "my.chat.settings"
    ∧ ("my.chat.settings" : String) ≠ "zzzBlob" :=
  ⟨by decide, by decide, by decide, by decide⟩

/-- C2 (amended): the last-resort scan runs only when the scoring pass
assigned no score at all (no candidate key's value parsed as JSON) — a
candidate that parses and scores zero is still selected by the first pass —
and Discovery reports not found exactly when there is no scored candidate
and the fallback scan also finds nothing. -/
theorem C2_fallback_trigger :
    (∀ tbl, scoredCandidates tbl = [] → findStateKey tbl = fallbackScan tbl)
    ∧ (∀ tbl, findStateKey tbl = none ↔
        scoredCandidates tbl = [] ∧ fallbackScan tbl = none)
    ∧ (∀ tbl k, scoredCandidates tbl = [(k, 0)] → k.isEmpty = false →
        findStateKey tbl = some k) := by
  refine ⟨?_, ?_, ?_⟩
  · intro tbl h
    unfold findStateKey
    rw [h]
    rfl
  · intro tbl
    unfold findStateKey
    cases hp : pickBest (scoredCandidates tbl) with
    | none =>
      rw [pickBest_none_iff] at hp
      simp [hp]
    | some b =>
      have hne : scoredCandidates tbl ≠ [] := by
        intro h0
        rw [(pickBest_none_iff _).mpr h0] at hp
        exact absurd hp (by simp)
      constructor
      · intro h
        dsimp only at h
        by_cases hb : b.1.isEmpty = false
        · rw [if_pos (by simp [hb])] at h
          exact absurd h (by simp)
        · rw [if_neg (by simpa using hb)] at h
          cases hf : fallbackScan tbl with
          | none => rw [hf] at h; exact absurd h (by simp)
          | some k => rw [hf] at h; exact absurd h (by simp)
      · intro ⟨h0, _⟩
        exact absurd h0 hne
  · intro tbl k h hk
    unfold findStateKey
    rw [h]
    simp [pickBest, hk]

/-- C2 (witness): the amended trigger at concrete tables — a table with no
candidate at all falls back (and reports not found when the fallback also
misses); the counterexample table's lone zero-scoring candidate is
selected. -/
theorem C2_witness :
    findStateKey [⟨"zzz.blob", 2, some (.obj [])⟩]
        = fallbackScan [⟨"zzz.blob", 2, some (.obj [])⟩]
    ∧ findStateKey
        [⟨"my.chat.settings", 2, some (.obj [])⟩,
         ⟨"zzzBlob", 15, some (.arr [.obj [("text", .str "hi")]])⟩]
      = some "my.chat.settings" :=
  ⟨C2_fallback_trigger.1 _ (by decide),
   C2_fallback_trigger.2.2 _ "my.chat.settings" (by decide) (by decide)⟩

/-- C6: a candidate whose value parses to a JSON list scores the list's
length plus a 1000 bonus when the first element is a record containing one
of the fixed free-text field names; the selection fold returns the first
candidate attaining the strictly highest score (all earlier candidates score
strictly less, all later ones at most as much); and on the table
`{"workbench.view.explorer": "{}", "xyz.chatHistory":
"[{\"text\":\"hi\"},{\"text\":\"there\"}]"}` Discovery returns
`xyz.chatHistory`. -/
theorem C6_scoring_and_selection :
    (∀ xs : List JValue, scoreValue (.arr xs) =
        xs.length + (if (match xs with
                         | y :: _ => textBearing textKeys y
                         | [] => false) then 1000 else 0))
    ∧ (∀ (cs : List (String × Nat)) (k : String) (s : Nat),
        pickBest cs = some (k, s) →
        ∃ pre post, cs = pre ++ (k, s) :: post
          ∧ (∀ p ∈ pre, p.2 < s) ∧ (∀ p ∈ post, p.2 ≤ s))
    ∧ findStateKey
        [⟨"workbench.view.explorer", 2, some (.obj [])⟩,
         ⟨"xyz.chatHistory", 31,
          some (.arr [.obj [("text", .str "hi")],
                      .obj [("text", .str "there")]])⟩]
      = some "xyz.chatHistory" := by
  refine ⟨?_, pickBest_spec, by decide⟩
  intro xs
  rfl

/-- C6 (witness): the selection characterization at a concrete score list —
the first of two equal top scorers wins. -/
theorem C6_witness :
    ∃ pre post,
      ([("low", 3), ("winner", 7), ("tied", 7)] : List (String × Nat))
        = pre ++ ("winner", 7) :: post
      ∧ (∀ p ∈ pre, p.2 < 7) ∧ (∀ p ∈ post, p.2 ≤ 7) :=
  C6_scoring_and_selection.2.1 [("low", 3), ("winner", 7), ("tied", 7)]
    "winner" 7 (by decide)

theorem npr_le (l : List String) : ∀ t, npr l t ≤ t + 1
  | 0 => by unfold npr; split <;> omega
  | t + 1 => by
    unfold npr
    split
    · have := npr_le l t
      omega
    · omega

theorem npr_pos (l : List String) (t : Nat) (h : avail l t) : 1 ≤ npr l t := by
  cases t with
  | zero => unfold npr; rw [if_pos h]
  | succ t => unfold npr; rw [if_pos h]; omega

theorem npr_avail (l : List String) (t : Nat) (h : avail l t) :
    npr l t = nprPrev l t + 1 := by
  cases t with
  | zero => unfold npr nprPrev; rw [if_pos h]
  | succ t => unfold npr nprPrev; rw [if_pos h]

theorem b2j_lt (l : List String) (x : String) : ∀ j ∈ b2j l x, j < l.length := by
  intro j hj
  unfold b2j at hj
  dsimp only at hj
  split at hj
  · simp at hj
  · exact List.mem_range.mp (List.mem_of_mem_filter hj)

theorem b2j_pairwise (l : List String) (x : String) :
    (b2j l x).Pairwise (· < ·) := by
  unfold b2j
  dsimp only
  split
  · exact List.Pairwise.nil
  · exact (List.pairwise_lt_range _).filter _

theorem b2j_elem (l : List String) (x : String) :
    ∀ j ∈ b2j l x, l.getD j "" = x := by
  intro j hj
  unfold b2j at hj
  dsimp only at hj
  split at hj
  · simp at hj
  · have := List.of_mem_filter hj
    simp only [Bool.and_eq_true, beq_iff_eq, decide_eq_true_eq] at this
    exact this.1

theorem avail_of_mem_b2j (l : List String) (x : String) (j : Nat)
    (h : j ∈ b2j l x) : avail l j := by
  unfold avail
  rw [b2j_elem l x j h]
  exact h

theorem mem_b2j_self (l : List String) (i : Nat) (hi : i < l.length)
    (hne : b2j l (l.getD i "") ≠ []) : i ∈ b2j l (l.getD i "") := by
  unfold b2j at hne ⊢
  dsimp only at hne ⊢
  split
  · rename_i h
    rw [if_pos h] at hne
    exact absurd rfl hne
  · exact List.mem_filter.mpr ⟨List.mem_range.mpr hi, by simp [hi]⟩

theorem npr_of_not_avail (l : List String) (t : Nat) (h : ¬ avail l t) :
    npr l t = 0 := by
  cases t with
  | zero => unfold npr; rw [if_neg h]
  | succ t => unfold npr; rw [if_neg h]

theorem js_self_eq (l : List String) (x : String) :
    ((b2j l x).takeWhile (fun j => j < l.length)).filter (fun j => 0 ≤ j) =
      b2j l x := by
  have h1 : (b2j l x).takeWhile (fun j => j < l.length) = b2j l x :=
    List.takeWhile_eq_self_iff.mpr (fun j hj => by
      simp only [decide_eq_true_eq]
      exact b2j_lt l x j hj)
  rw [h1]
  exact List.filter_eq_self.mpr (fun j _ => by simp)

theorem flmExtendLeft_self (l : List String) :
    ∀ d k, flmExtendLeft l l 0 0 d d k = (0, 0, d + k)
  | 0, k => by simp [flmExtendLeft]
  | d + 1, k => by
    unfold flmExtendLeft
    rw [if_pos ⟨Nat.succ_pos d, Nat.succ_pos d, rfl⟩]
    rw [show d + 1 - 1 = d from rfl]
    rw [flmExtendLeft_self l d (k + 1)]
    simp only [Prod.mk.injEq, true_and]
    omega

theorem flmExtendRightAux_self (l : List String) (n : Nat) :
    ∀ fuel k, fuel = n - k → k ≤ n →
      flmExtendRightAux l l n n 0 0 fuel k = n
  | 0, k, hf, hk => by
    unfold flmExtendRightAux
    omega
  | fuel + 1, k, hf, hk => by
    have hkn : k < n := by omega
    unfold flmExtendRightAux
    rw [if_pos ⟨by omega, by omega, rfl⟩]
    exact flmExtendRightAux_self l n fuel (k + 1) (by omega) (by omega)

theorem flmRowFold_inv (l : List String) (i : Nat) (f : Nat → Nat)
    (havi : avail l i) (hf4 : ∀ j, f j ≤ npr l j)
    (hf5 : ∀ j, f j ≤ nprPrev l i) (hf6 : ∀ t, i = t + 1 → f t = npr l t) :
    ∀ (js : List Nat) (best : Nat × Nat × Nat) (g : Nat → Nat),
      js.Pairwise (· < ·) →
      (∀ j ∈ js, avail l j) →
      (i ∈ js ∨ (npr l i ≤ best.2.2 ∧ g i = npr l i)) →
      best.1 = best.2.1 →
      best.2.1 + best.2.2 ≤ i + 1 →
      (∀ t, t < i → npr l t ≤ best.2.2) →
      (∀ j, g j ≤ npr l j) →
      (∀ j, g j ≤ npr l i) →
      rowP l i (js.foldl (flmRowStep i f) (best, g)) := by
  intro js
  induction js with
  | nil =>
    intro best g _ _ hdiag hb1 hb2 hb3 hg4 hg5
    rcases hdiag with h | ⟨h1, h2⟩
    · simp at h
    · exact ⟨hb1, hb2,
        fun t ht => by
          rcases Nat.lt_or_eq_of_le ht with h | h
          · exact hb3 t h
          · subst h; exact h1,
        hg4, hg5, h2⟩
  | cons j rest ih =>
    intro best g hpw hav hdiag hb1 hb2 hb3 hg4 hg5
    have havj : avail l j := hav j (List.mem_cons_self j rest)
    have hnpri : npr l i = nprPrev l i + 1 := npr_avail l i havi
    have hk1 : fPrev f j + 1 ≤ npr l j := by
      cases j with
      | zero =>
        have := npr_pos l 0 havj
        simp only [fPrev]
        omega
      | succ j' =>
        have h2 : npr l (j' + 1) = npr l j' + 1 := by
          have := npr_avail l (j' + 1) havj
          simpa [nprPrev] using this
        have h1 := hf4 j'
        simp only [fPrev]
        omega
    have hk2 : fPrev f j + 1 ≤ npr l i := by
      cases j with
      | zero => simp only [fPrev]; omega
      | succ j' =>
        have := hf5 j'
        simp only [fPrev]
        omega
    rw [List.foldl_cons]
    rw [show flmRowStep i f (best, g) j =
      (if fPrev f j + 1 > best.2.2 then
        (i + 1 - (fPrev f j + 1), j + 1 - (fPrev f j + 1), fPrev f j + 1)
       else best,
       fun x => if x = j then fPrev f j + 1 else g x) from rfl]
    have hpw2 := List.pairwise_cons.mp hpw
    by_cases hji : j = i
    · subst hji
      have hki : fPrev f j + 1 = npr l j := by
        cases j with
        | zero =>
          have := npr_pos l 0 havi
          have := npr_le l 0
          simp only [fPrev]
          unfold npr
          rw [if_pos havi]
        | succ t =>
          have h1 := hf6 t rfl
          have h2 : npr l (t + 1) = npr l t + 1 := by
            have := npr_avail l (t + 1) havi
            simpa [nprPrev] using this
          simp only [fPrev, h1, h2]
      by_cases hup : fPrev f j + 1 > best.2.2
      · rw [if_pos hup]
        refine ih _ _ hpw2.2 (fun y hy => hav y (List.mem_cons_of_mem j hy))
          (Or.inr ⟨by dsimp only; omega, by simp [hki]⟩) rfl ?_ ?_ ?_ ?_
        · dsimp only
          have := npr_le l j
          omega
        · intro t ht
          dsimp only
          have := hb3 t ht
          omega
        · intro x
          by_cases hx : x = j
          · subst hx; rw [if_pos rfl]; omega
          · rw [if_neg hx]; exact hg4 x
        · intro x
          by_cases hx : x = j
          · subst hx; rw [if_pos rfl]; omega
          · rw [if_neg hx]; exact hg5 x
      · rw [if_neg hup]
        refine ih _ _ hpw2.2 (fun y hy => hav y (List.mem_cons_of_mem j hy))
          (Or.inr ⟨by omega, by simp [hki]⟩) hb1 hb2 hb3 ?_ ?_
        · intro x
          by_cases hx : x = j
          · subst hx; rw [if_pos rfl]; omega
          · rw [if_neg hx]; exact hg4 x
        · intro x
          by_cases hx : x = j
          · subst hx; rw [if_pos rfl]; omega
          · rw [if_neg hx]; exact hg5 x
    · have hij : i ≠ j := fun h => hji h.symm
      rcases Nat.lt_or_ge j i with hlt | hge
      · have hnoup : ¬ (fPrev f j + 1 > best.2.2) := by
          have := hb3 j hlt
          omega
        rw [if_neg hnoup]
        refine ih _ _ hpw2.2 (fun y hy => hav y (List.mem_cons_of_mem j hy))
          ?_ hb1 hb2 hb3 ?_ ?_
        · rcases hdiag with hmem | h
          · rcases List.mem_cons.mp hmem with h | h
            · exact absurd h hij
            · exact Or.inl h
          · exact Or.inr ⟨h.1, by simp [hij, h.2]⟩
        · intro x
          by_cases hx : x = j
          · subst hx; rw [if_pos rfl]; omega
          · rw [if_neg hx]; exact hg4 x
        · intro x
          by_cases hx : x = j
          · subst hx; rw [if_pos rfl]; omega
          · rw [if_neg hx]; exact hg5 x
      · have hnotin : i ∉ j :: rest := by
          intro hmem
          rcases List.mem_cons.mp hmem with h | h
          · omega
          · have := hpw2.1 i h
            omega
        have hdone := hdiag.resolve_left hnotin
        have hnoup : ¬ (fPrev f j + 1 > best.2.2) := by
          have := hdone.1
          omega
        rw [if_neg hnoup]
        refine ih _ _ hpw2.2 (fun y hy => hav y (List.mem_cons_of_mem j hy))
          (Or.inr ⟨hdone.1, by simp [hij, hdone.2]⟩) hb1 hb2 hb3 ?_ ?_
        · intro x
          by_cases hx : x = j
          · subst hx; rw [if_pos rfl]; omega
          · rw [if_neg hx]; exact hg4 x
        · intro x
          by_cases hx : x = j
          · subst hx; rw [if_pos rfl]; omega
          · rw [if_neg hx]; exact hg5 x

theorem flmRow_inv (l : List String) (i : Nat) (hi : i < l.length)
    (best : Nat × Nat × Nat) (f : Nat → Nat)
    (hb1 : best.1 = best.2.1) (hb2 : best.2.1 + best.2.2 ≤ i)
    (hb3 : ∀ t, t < i → npr l t ≤ best.2.2)
    (hf4 : ∀ j, f j ≤ npr l j) (hf5 : ∀ j, f j ≤ nprPrev l i)
    (hf6 : ∀ t, i = t + 1 → f t = npr l t) :
    rowP l i (flmRow l l 0 l.length i (best, f)) := by
  unfold flmRow
  dsimp only
  rw [js_self_eq]
  by_cases havi : avail l i
  · exact flmRowFold_inv l i f havi hf4 hf5 hf6 (b2j l (l.getD i ""))
      best (fun _ => 0) (b2j_pairwise l _)
      (fun j hj => avail_of_mem_b2j l _ j hj) (Or.inl havi) hb1 (by omega)
      hb3 (fun j => Nat.zero_le _) (fun j => Nat.zero_le _)
  · have hemp : b2j l (l.getD i "") = [] := by
      by_contra hne
      exact havi (mem_b2j_self l i hi hne)
    rw [hemp]
    simp only [List.foldl_nil]
    have hnpri : npr l i = 0 := npr_of_not_avail l i havi
    exact ⟨hb1, by dsimp only; omega,
      fun t ht => by
        rcases Nat.lt_or_eq_of_le ht with h | h
        · exact hb3 t h
        · subst h; dsimp only; omega,
      fun j => Nat.zero_le _, fun j => Nat.zero_le _, by dsimp only; omega⟩

theorem flmDP_fold_inv (l : List String) :
    ∀ (cnt s : Nat) (best : Nat × Nat × Nat) (f : Nat → Nat),
      s + cnt = l.length →
      best.1 = best.2.1 → best.2.1 + best.2.2 ≤ s →
      (∀ t, t < s → npr l t ≤ best.2.2) →
      (∀ j, f j ≤ npr l j) →
      (∀ j, f j ≤ nprPrev l s) →
      (∀ t, s = t + 1 → f t = npr l t) →
      dpP l ((List.range' s cnt).foldl
        (fun st i => flmRow l l 0 l.length i st) (best, f)).1
  | 0, s, best, f, hs, hb1, hb2, hb3, _, _, _ => by
    rw [show List.range' s 0 = [] from rfl, List.foldl_nil]
    exact ⟨hb1, by dsimp only; omega, fun t ht => hb3 t (by omega)⟩
  | cnt + 1, s, best, f, hs, hb1, hb2, hb3, hf4, hf5, hf6 => by
    have hsn : s < l.length := by omega
    obtain ⟨r1, r2, r3, r4, r5, r6⟩ :=
      flmRow_inv l s hsn best f hb1 hb2 hb3 hf4 hf5 hf6
    rw [show List.range' s (cnt + 1) = s :: List.range' (s + 1) cnt from rfl,
      List.foldl_cons]
    exact flmDP_fold_inv l cnt (s + 1)
      (flmRow l l 0 l.length s (best, f)).1
      (flmRow l l 0 l.length s (best, f)).2
      (by omega) r1 r2 (fun t ht => r3 t (by omega)) r4
      (fun j => r5 j) (fun t ht => by
        have hst : s = t := by omega
        subst hst
        exact r6)

theorem flmDP_self (l : List String) :
    dpP l (flmDP l l 0 l.length 0 l.length) := by
  unfold flmDP
  rw [show l.length - 0 = l.length from rfl]
  exact flmDP_fold_inv l l.length 0 (0, 0, 0) (fun _ => 0) (by omega)
    rfl (by decide) (fun t ht => absurd ht (Nat.not_lt_zero t))
    (fun j => Nat.zero_le _) (fun j => Nat.zero_le _)
    (fun t ht => absurd ht.symm (Nat.succ_ne_zero t))

theorem flm_self (l : List String) :
    findLongestMatch l l 0 l.length 0 l.length = (0, 0, l.length) := by
  obtain ⟨h1, h2, _⟩ := flmDP_self l
  unfold findLongestMatch
  dsimp only
  rw [← h1, flmExtendLeft_self]
  dsimp only
  unfold flmExtendRight
  rw [flmExtendRightAux_self l l.length _ _ (by omega) (by omega)]

theorem mbAux_nil (a b : List String) (fuel : Nat)
    (acc : List (Nat × Nat × Nat)) : mbAux a b fuel [] acc = acc := by
  cases fuel <;> rfl

theorem mbAux_self (l : List String) (hn : 0 < l.length) (fuel : Nat)
    (acc : List (Nat × Nat × Nat)) :
    mbAux l l (fuel + 1) [(0, l.length, 0, l.length)] acc =
      (0, 0, l.length) :: acc := by
  rw [mbAux.eq_def]
  dsimp only
  rw [flm_self]
  dsimp only
  rw [if_neg (by omega), if_neg (by omega), if_neg (by omega)]
  rw [show ([] : List (Nat × Nat × Nat × Nat)) ++ [] ++ [] = [] from rfl]
  exact mbAux_nil l l fuel _

theorem getMatchingBlocks_self (l : List String) (h : l ≠ []) :
    getMatchingBlocks l l =
      [(0, 0, l.length), (l.length, l.length, 0)] := by
  have hn : 0 < l.length := List.length_pos.mpr h
  have hne : l.length ≠ 0 := by omega
  unfold getMatchingBlocks
  rw [show l.length + l.length + 2 = (l.length + l.length + 1) + 1 from rfl]
  rw [mbAux_self l hn _ []]
  rw [show sortBlocks [(0, 0, l.length)] = [(0, 0, l.length)] from rfl]
  unfold mergeBlocks
  simp [hne]

theorem getOpcodes_self (l : List String) (h : l ≠ []) :
    getOpcodes l l = [⟨"equal", 0, l.length, 0, l.length⟩] := by
  have hn : 0 < l.length := List.length_pos.mpr h
  have hne : l.length ≠ 0 := by omega
  unfold getOpcodes
  rw [getMatchingBlocks_self l h]
  simp [hne]

theorem groupedOpcodes_self (l : List String) (h : l ≠ []) :
    groupedOpcodes l l = [] := by
  have hmax : max 0 (l.length - 3) = l.length - 3 := by omega
  have hmin : min l.length (l.length - 3 + 3) = l.length := by omega
  have hgt : ¬ (l.length - (l.length - 3) > 3 + 3) := by omega
  unfold groupedOpcodes
  rw [getOpcodes_self l h]
  simp [hmax, hmin, hgt]

theorem unifiedDiff_self (l : List String) (ff tf : String) :
    unifiedDiff l l ff tf = [] := by
  rcases eq_or_ne l [] with rfl | h
  · rfl
  · unfold unifiedDiff
    rw [groupedOpcodes_self l h]
    rfl

theorem generateDiffHtml_self (s fp : String) :
    generateDiffHtml s s fp =
      "<div class='diff-no-changes'>No changes detected in " ++ fp
        ++ "</div>" := by
  unfold generateDiffHtml
  dsimp only
  rw [unifiedDiff_self]
  rfl

theorem take_two_eq_cons :
    ∀ (cs : List Char), cs.take 2 = ['@', '@'] →
      ∃ rest, cs = '@' :: '@' :: rest
  | [], h => by simp at h
  | [c], h => by simp at h
  | c1 :: c2 :: rest, h => by
    simp only [List.take_succ_cons, List.take_zero, List.cons.injEq,
      and_true] at h
    exact ⟨rest, by rw [h.1, h.2]⟩

theorem diffLineRender_hunk (st : Nat × Nat × List String) (line : String)
    (nums : Nat × Nat) (hp : parseHunkNums line = some nums)
    (htake : line.data.take 2 = ['@', '@']) :
    diffLineRender st line =
      (nums.1, nums.2, st.2.2 ++
        ["<div class=\"diff-hunk-header\">" ++ stripWS line ++ "</div>"]) := by
  obtain ⟨rest, hdd⟩ := take_two_eq_cons line.data htake
  unfold diffLineRender
  split
  case _ x heq => simp [hp]
  case _ x heq =>
    rw [hdd] at heq
    injection heq with h1 _
    exact absurd h1 (by decide)
  case _ x heq =>
    rw [hdd] at heq
    injection heq with h1 _
    exact absurd h1 (by decide)
  case _ x heq =>
    rw [hdd] at heq
    injection heq with h1 _
    exact absurd h1 (by decide)
  case _ x heq =>
    rw [hdd] at heq
    injection heq with h1 _
    exact absurd h1 (by decide)
  case _ x heq =>
    rw [hdd] at heq
    injection heq with h1 _
    exact absurd h1 (by decide)
  case _ hno _ _ _ _ _ =>
    exact absurd hdd (by intro hc; exact hno rest hc)

set_option maxRecDepth 100000 in
/-- **C7** (confirmed): the Diff Renderer on two identical strings emits the
single no-changes marker (so no removed or added lines at all); on
old="a\nb\n" and new="a\nc\n" its html-line list contains exactly one
context line (content a, numbered 1), one removed line (content b, numbered 2
against the old file) and one added line (content c, numbered 2 against the
new file); and whenever a diff line starts with "@@" and the hunk-header
regular expression matches, both line counters are re-seeded from the two
captured numbers. -/
theorem C7_diff_renderer :
    (∀ s fp : String, generateDiffHtml s s fp =
      "<div class='diff-no-changes'>No changes detected in " ++ fp
        ++ "</div>") ∧
    diffHtmlLines "a\nb\n" "a\nc\n" "f.py" =
      ["<div class=\"diff-container\">",
       "<div class=\"diff-header\">📝 <strong>File:</strong> f.py</div>",
       "<div class=\"diff-content\">",
       "<div class=\"diff-hunk-header\">@@ -1,2 +1,2 @@</div>",
       "<div class=\"diff-line diff-context\">",
       "<span class=\"diff-line-number\">1</span>",
       "<span class=\"diff-marker\"> </span>",
       "<span class=\"diff-content\">a</span>",
       "</div>",
       "<div class=\"diff-line diff-removed\">",
       "<span class=\"diff-line-number\">2</span>",
       "<span class=\"diff-marker\">-</span>",
       "<span class=\"diff-content\">b</span>",
       "</div>",
       "<div class=\"diff-line diff-added\">",
       "<span class=\"diff-line-number\">2</span>",
       "<span class=\"diff-marker\">+</span>",
       "<span class=\"diff-content\">c</span>",
       "</div>",
       "</div>", "</div>"] ∧
    (∀ (st : Nat × Nat × List String) (line : String) (nums : Nat × Nat),
      parseHunkNums line = some nums → line.data.take 2 = ['@', '@'] →
      (diffLineRender st line).1 = nums.1 ∧
      (diffLineRender st line).2.1 = nums.2) :=
  ⟨fun s fp => generateDiffHtml_self s fp,
   by decide,
   fun st line nums hp ht =>
     ⟨by rw [diffLineRender_hunk st line nums hp ht],
      by rw [diffLineRender_hunk st line nums hp ht]⟩⟩

set_option maxRecDepth 100000 in
/-- Witness for C7: the hunk header line "@@ -5,2 +9,3 @@" parses to the
pair (5, 9) and re-seeds the counters of a concrete renderer state to 5
and 9. -/
theorem C7_witness :
    parseHunkNums "@@ -5,2 +9,3 @@" = some (5, 9) ∧
    ("@@ -5,2 +9,3 @@" : String).data.take 2 = ['@', '@'] ∧
    (diffLineRender (0, 0, []) "@@ -5,2 +9,3 @@").1 = 5 ∧
    (diffLineRender (0, 0, []) "@@ -5,2 +9,3 @@").2.1 = 9 :=
  ⟨by decide, by decide,
   (C7_diff_renderer.2.2 (0, 0, []) "@@ -5,2 +9,3 @@" (5, 9)
     (by decide) (by decide)).1,
   (C7_diff_renderer.2.2 (0, 0, []) "@@ -5,2 +9,3 @@" (5, 9)
     (by decide) (by decide)).2⟩

end AIView
